import Mathlib

set_option maxRecDepth 20000

/-!
# Verification development for the Sacred Computing Platform (healing_api.py)

A shallow embedding of the intention-broadcast core of `healing_api.py`:
the packet codec (JSON + base64 + SHA-256 checksum), the pattern-derivation
functions of `SacredGeometryCalculator`, the WebSocket broadcast fan-out, and
the per-connection INTENTION message handler.

Python machine integers are modelled as `Nat`/`Int` (with explicit `% 2^w`
where the hash algorithms need fixed-width words).  Python floats are modelled
as exact rationals `ℚ`; where the code's float constants are irrational-derived
(`PHI`, `SQRT3`, `360/7`) the embedding uses the exact rational value of the
IEEE-754 double the Python code computes, written out as a fraction.
Fallible code (`raise ValueError`, `return None`) is modelled with
`Except`/`Option`.
-/

namespace Healing

/-! ## Generic byte/word helpers -/

/-- Split a list into consecutive chunks of size `n` (fuel-based, total). -/
def chunksAux (n : Nat) : Nat → List α → List (List α)
  | 0, _ => []
  | _, [] => []
  | fuel + 1, l => l.take n :: chunksAux n fuel (l.drop n)

/-- Split a list into consecutive chunks of size `n`. -/
def chunks (n : Nat) (l : List α) : List (List α) :=
  chunksAux n l.length l

/-- Big-endian bytes (least significant last) of `n`, `k` bytes wide. -/
def natToBytesBE (k : Nat) (n : Nat) : List Nat :=
  match k with
  | 0 => []
  | k + 1 => natToBytesBE k (n / 256) ++ [n % 256]

/-- Interpret a list of bytes as a big-endian natural number. -/
def bytesToNatBE (bs : List Nat) : Nat :=
  bs.foldl (fun acc b => acc * 256 + b) 0

/-! ## SHA-2 (FIPS 180-4), generic over the word size

Models Python's `hashlib.sha256` / `hashlib.sha512` hexdigest on a byte
string.  Words are `Nat` reduced modulo `2^w`. -/

/-- Right-rotation of an `w`-bit word. -/
def rotr (w n x : Nat) : Nat :=
  ((x >>> n) ||| (x <<< (w - n))) % 2 ^ w

/-- Bitwise complement of an `w`-bit word. -/
def bitnot (w x : Nat) : Nat :=
  (2 ^ w - 1) ^^^ x

/-- Parameters distinguishing SHA-256 from SHA-512. -/
structure Sha2Params where
  w : Nat               -- word size in bits (32 or 64)
  blockBytes : Nat      -- 64 or 128
  lenBytes : Nat        -- size of the length field in the padding (8 or 16)
  K : List Nat          -- round constants
  H0 : List Nat         -- initial hash value
  bs0 : Nat × Nat × Nat -- big sigma0 rotations
  bs1 : Nat × Nat × Nat -- big sigma1 rotations
  ss0 : Nat × Nat × Nat -- small sigma0: two rotations and a shift
  ss1 : Nat × Nat × Nat -- small sigma1: two rotations and a shift

def Sha2Params.bigSigma0 (p : Sha2Params) (x : Nat) : Nat :=
  rotr p.w p.bs0.1 x ^^^ rotr p.w p.bs0.2.1 x ^^^ rotr p.w p.bs0.2.2 x

def Sha2Params.bigSigma1 (p : Sha2Params) (x : Nat) : Nat :=
  rotr p.w p.bs1.1 x ^^^ rotr p.w p.bs1.2.1 x ^^^ rotr p.w p.bs1.2.2 x

def Sha2Params.smallSigma0 (p : Sha2Params) (x : Nat) : Nat :=
  rotr p.w p.ss0.1 x ^^^ rotr p.w p.ss0.2.1 x ^^^ (x >>> p.ss0.2.2)

def Sha2Params.smallSigma1 (p : Sha2Params) (x : Nat) : Nat :=
  rotr p.w p.ss1.1 x ^^^ rotr p.w p.ss1.2.1 x ^^^ (x >>> p.ss1.2.2)

/-- SHA-2 message padding: `0x80`, zeros, then the bit length, big-endian. -/
def sha2Pad (p : Sha2Params) (msg : List Nat) : List Nat :=
  let zeros := (p.blockBytes - (msg.length + 1 + p.lenBytes) % p.blockBytes)
      % p.blockBytes
  msg ++ [0x80] ++ List.replicate zeros 0 ++ natToBytesBE p.lenBytes (msg.length * 8)

/-- Extend 16 words to the full message schedule (one step appends one word). -/
def sha2ScheduleGo (p : Sha2Params) : Nat → List Nat → List Nat
  | 0, W => W
  | t + 1, W =>
    let n := W.length
    let next := (p.smallSigma1 (W.getD (n - 2) 0) + W.getD (n - 7) 0 +
        p.smallSigma0 (W.getD (n - 15) 0) + W.getD (n - 16) 0) % 2 ^ p.w
    sha2ScheduleGo p t (W ++ [next])

/-- One compression round on the state `[a,b,c,d,e,f,g,h]`. -/
def sha2Round (p : Sha2Params) (st : List Nat) (kw : Nat × Nat) : List Nat :=
  let M := 2 ^ p.w
  let a := st.getD 0 0
  let b := st.getD 1 0
  let c := st.getD 2 0
  let d := st.getD 3 0
  let e := st.getD 4 0
  let f := st.getD 5 0
  let g := st.getD 6 0
  let h := st.getD 7 0
  let ch := (e &&& f) ^^^ (bitnot p.w e &&& g)
  let maj := (a &&& b) ^^^ (a &&& c) ^^^ (b &&& c)
  let t1 := (h + p.bigSigma1 e + ch + kw.1 + kw.2) % M
  let t2 := (p.bigSigma0 a + maj) % M
  [(t1 + t2) % M, a, b, c, (d + t1) % M, e, f, g]

/-- Process one message block, updating the running hash `H`. -/
def sha2Block (p : Sha2Params) (H : List Nat) (block : List Nat) : List Nat :=
  let w16 := (chunks (p.w / 8) block).map bytesToNatBE
  let W := sha2ScheduleGo p (p.K.length - 16) w16
  let st := (p.K.zip W).foldl (sha2Round p) H
  (H.zip st).map (fun hx => (hx.1 + hx.2) % 2 ^ p.w)

/-- The full SHA-2 digest as a list of words. -/
def sha2Words (p : Sha2Params) (msg : List Nat) : List Nat :=
  (chunks p.blockBytes (sha2Pad p msg)).foldl (sha2Block p) p.H0

/-- Lower-case hex digit for `n % 16` (matches Python's `hexdigest`). -/
def hexChar (n : Nat) : Char :=
  let m := n % 16
  if m < 10 then Char.ofNat (48 + m) else Char.ofNat (87 + m)

/-- `n` as `k` lower-case hex digits, most significant first. -/
def natToHex (k : Nat) (n : Nat) : List Char :=
  match k with
  | 0 => []
  | k + 1 => natToHex k (n / 16) ++ [hexChar n]

def sha256Params : Sha2Params :=
  { w := 32, blockBytes := 64, lenBytes := 8
    K := [1116352408, 1899447441, 3049323471, 3921009573, 961987163, 1508970993,
      2453635748, 2870763221, 3624381080, 310598401, 607225278, 1426881987,
      1925078388, 2162078206, 2614888103, 3248222580, 3835390401, 4022224774,
      264347078, 604807628, 770255983, 1249150122, 1555081692, 1996064986,
      2554220882, 2821834349, 2952996808, 3210313671, 3336571891, 3584528711,
      113926993, 338241895, 666307205, 773529912, 1294757372, 1396182291,
      1695183700, 1986661051, 2177026350, 2456956037, 2730485921, 2820302411,
      3259730800, 3345764771, 3516065817, 3600352804, 4094571909, 275423344,
      430227734, 506948616, 659060556, 883997877, 958139571, 1322822218,
      1537002063, 1747873779, 1955562222, 2024104815, 2227730452, 2361852424,
      2428436474, 2756734187, 3204031479, 3329325298]
    H0 := [1779033703, 3144134277, 1013904242, 2773480762, 1359893119,
      2600822924, 528734635, 1541459225]
    bs0 := (2, 13, 22), bs1 := (6, 11, 25)
    ss0 := (7, 18, 3), ss1 := (17, 19, 10) }

def sha512Params : Sha2Params :=
  { w := 64, blockBytes := 128, lenBytes := 16
    K := [4794697086780616226, 8158064640168781261, 13096744586834688815, 16840607885511220156,
      4131703408338449720, 6480981068601479193, 10538285296894168987, 12329834152419229976,
      15566598209576043074, 1334009975649890238, 2608012711638119052, 6128411473006802146,
      8268148722764581231, 9286055187155687089, 11230858885718282805, 13951009754708518548,
      16472876342353939154, 17275323862435702243, 1135362057144423861, 2597628984639134821,
      3308224258029322869, 5365058923640841347, 6679025012923562964, 8573033837759648693,
      10970295158949994411, 12119686244451234320, 12683024718118986047, 13788192230050041572,
      14330467153632333762, 15395433587784984357, 489312712824947311, 1452737877330783856,
      2861767655752347644, 3322285676063803686, 5560940570517711597, 5996557281743188959,
      7280758554555802590, 8532644243296465576, 9350256976987008742, 10552545826968843579,
      11727347734174303076, 12113106623233404929, 14000437183269869457, 14369950271660146224,
      15101387698204529176, 15463397548674623760, 17586052441742319658, 1182934255886127544,
      1847814050463011016, 2177327727835720531, 2830643537854262169, 3796741975233480872,
      4115178125766777443, 5681478168544905931, 6601373596472566643, 7507060721942968483,
      8399075790359081724, 8693463985226723168, 9568029438360202098, 10144078919501101548,
      10430055236837252648, 11840083180663258601, 13761210420658862357, 14299343276471374635,
      14566680578165727644, 15097957966210449927, 16922976911328602910, 17689382322260857208,
      500013540394364858, 748580250866718886, 1242879168328830382, 1977374033974150939,
      2944078676154940804, 3659926193048069267, 4368137639120453308, 4836135668995329356,
      5532061633213252278, 6448918945643986474, 6902733635092675308, 7801388544844847127]
    H0 := [7640891576956012808, 13503953896175478587, 4354685564936845355,
      11912009170470909681, 5840696475078001361, 11170449401992604703,
      2270897969802886507, 6620516959819538809]
    bs0 := (28, 34, 39), bs1 := (14, 18, 41)
    ss0 := (1, 8, 7), ss1 := (19, 61, 6) }

/-- `hashlib.sha256(bytes).hexdigest()` on a byte list, as a char list. -/
def sha256hexL (msg : List Nat) : List Char :=
  ((sha2Words sha256Params msg).map (natToHex 8)).foldl (· ++ ·) []

/-- `hashlib.sha512(bytes).hexdigest()` on a byte list, as a char list. -/
def sha512hexL (msg : List Nat) : List Char :=
  ((sha2Words sha512Params msg).map (natToHex 16)).foldl (· ++ ·) []

/-! ## Hex rendering of byte strings

`secrets.token_hex(n)` returns the hex encoding of `n` random bytes; the
randomness is modelled as an explicit byte-list argument, and this is the
hex encoding. -/

def bytesToHexL (bs : List Nat) : List Char :=
  bs.flatMap (fun b => [hexChar (b / 16), hexChar b])

/-! ## UTF-8 (`str.encode('utf-8')` / `bytes.decode('utf-8')`) -/

def utf8EncodeChar (c : Char) : List Nat :=
  let n := c.toNat
  if n < 128 then [n]
  else if n < 2048 then [192 + n / 64, 128 + n % 64]
  else if n < 65536 then [224 + n / 4096, 128 + n / 64 % 64, 128 + n % 64]
  else [240 + n / 262144, 128 + n / 4096 % 64, 128 + n / 64 % 64, 128 + n % 64]

def utf8EncodeL (cs : List Char) : List Nat := cs.flatMap utf8EncodeChar

/-- Is `b` a UTF-8 continuation byte? -/
def utf8Cont (b : Nat) : Bool := 128 ≤ b && b < 192

/-- Decode one UTF-8-encoded scalar from the front of the byte list. -/
def utf8DecodeStep : List Nat → Option (Char × List Nat)
  | [] => none
  | b :: rest =>
    if b < 128 then some (Char.ofNat b, rest)
    else if b < 192 then none
    else if b < 224 then
      match rest with
      | b2 :: rest2 =>
        let n := (b - 192) * 64 + (b2 - 128)
        if utf8Cont b2 && 128 ≤ n then some (Char.ofNat n, rest2) else none
      | [] => none
    else if b < 240 then
      match rest with
      | b2 :: b3 :: rest3 =>
        let n := (b - 224) * 4096 + (b2 - 128) * 64 + (b3 - 128)
        if utf8Cont b2 && utf8Cont b3 && 2048 ≤ n && decide (Nat.isValidChar n) then
          some (Char.ofNat n, rest3)
        else none
      | _ => none
    else if b < 248 then
      match rest with
      | b2 :: b3 :: b4 :: rest4 =>
        let n := (b - 240) * 262144 + (b2 - 128) * 4096 + (b3 - 128) * 64 + (b4 - 128)
        if utf8Cont b2 && utf8Cont b3 && utf8Cont b4 && 65536 ≤ n && n < 1114112 then
          some (Char.ofNat n, rest4)
        else none
      | _ => none
    else none

def utf8DecodeGo : Nat → List Nat → Option (List Char)
  | _, [] => some []
  | 0, _ :: _ => none
  | fuel + 1, b :: l =>
    match utf8DecodeStep (b :: l) with
    | some (c, rest) => (utf8DecodeGo fuel rest).map (fun cs => c :: cs)
    | none => none

def utf8DecodeL (l : List Nat) : Option (List Char) := utf8DecodeGo l.length l

/-! ## Base64 (`base64.b64encode` / `base64.b64decode`) -/

def b64Char (n : Nat) : Char :=
  let m := n % 64
  if m < 26 then Char.ofNat (65 + m)
  else if m < 52 then Char.ofNat (97 + (m - 26))
  else if m < 62 then Char.ofNat (48 + (m - 52))
  else if m = 62 then '+' else '/'

def b64EncodeL : List Nat → List Char
  | [] => []
  | [b1] => [b64Char (b1 / 4), b64Char (b1 % 4 * 16), '=', '=']
  | [b1, b2] => [b64Char (b1 / 4), b64Char (b1 % 4 * 16 + b2 / 16), b64Char (b2 % 16 * 4), '=']
  | b1 :: b2 :: b3 :: rest =>
    b64Char (b1 / 4) :: b64Char (b1 % 4 * 16 + b2 / 16) ::
      b64Char (b2 % 16 * 4 + b3 / 64) :: b64Char (b3 % 64) :: b64EncodeL rest

def b64Val (c : Char) : Option Nat :=
  if 'A' ≤ c ∧ c ≤ 'Z' then some (c.toNat - 65)
  else if 'a' ≤ c ∧ c ≤ 'z' then some (c.toNat - 97 + 26)
  else if '0' ≤ c ∧ c ≤ '9' then some (c.toNat - 48 + 52)
  else if c = '+' then some 62
  else if c = '/' then some 63
  else none

def b64DecodeGo : List Char → Option (List Nat)
  | c1 :: c2 :: c3 :: c4 :: rest =>
    (match b64Val c1, b64Val c2 with
     | some v1, some v2 =>
       if c3 = '=' then
         if c4 = '=' ∧ rest = [] then some [v1 * 4 + v2 / 16] else none
       else
         match b64Val c3 with
         | some v3 =>
           if c4 = '=' then
             if rest = [] then some [v1 * 4 + v2 / 16, v2 % 16 * 16 + v3 / 4] else none
           else
             match b64Val c4 with
             | some v4 =>
               (b64DecodeGo rest).map
                 (fun bs => (v1 * 4 + v2 / 16) :: (v2 % 16 * 16 + v3 / 4) :: (v3 % 4 * 64 + v4) :: bs)
             | none => none
         | none => none
     | _, _ => none)
  | [] => some []
  | _ => none

/-- `base64.b64decode` first discards characters outside the alphabet
(its default `validate=False`), then decodes groups of four. -/
def b64DecodeL (cs : List Char) : Option (List Nat) :=
  b64DecodeGo (cs.filter (fun c => (b64Val c).isSome || c = '='))

/-! ## Decimal digit strings -/

def digitChar (n : Nat) : Char := Char.ofNat (48 + n % 10)

def natDigits (n : Nat) : List Char :=
  if _h : n < 10 then [digitChar n]
  else natDigits (n / 10) ++ [digitChar (n % 10)]
decreasing_by omega

/-- Decimal rendering of a Python `int` (`str`/`json.dumps`). -/
def intDigits (i : Int) : List Char :=
  if i < 0 then '-' :: natDigits i.natAbs else natDigits i.natAbs

def digitsVal (acc : Nat) (ds : List Char) : Nat :=
  ds.foldl (fun a c => a * 10 + (c.toNat - 48)) acc

/-! ## Rendering of Python floats

Python floats are IEEE-754 doubles; every such value is a rational with a
finite decimal expansion, and `repr`/`json.dumps` print a decimal literal
(shortest round-tripping form).  The embedding models a float as an exact
rational and renders its exact finite decimal expansion, always including a
decimal point (`7.0`, `7.83`), searching the exponent up to `RCAP` which
covers the full double range.  The claims proved below never depend on which
decimal literal of equal value is printed. -/

def RCAP : Nat := 1110

def decExp (q : ℚ) : Nat :=
  (((List.range (RCAP + 1)).find? (fun k => (q * 10 ^ k).den == 1)).getD RCAP)

def renderPosNum (q : ℚ) : List Char :=
  let k := max (decExp q) 1
  let N := (q * 10 ^ k).num.toNat
  let ds0 := natDigits N
  let ds := List.replicate (k + 1 - ds0.length) '0' ++ ds0
  ds.take (ds.length - k) ++ '.' :: ds.drop (ds.length - k)

def renderNumL (q : ℚ) : List Char :=
  if q < 0 then '-' :: renderPosNum (-q) else renderPosNum q

/-- Python's `%` on reals (result has the sign of the divisor; used with
positive divisors only). -/
def pyFmod (a b : ℚ) : ℚ := a - b * ⌊a / b⌋

/-! ## JSON documents

The platform's packet JSON uses objects, strings, numbers (Python ints and
floats are serialized differently, hence two constructors) and `null`.
Object members are a mutually inductive list so that all recursions are
structural.  Python dicts preserve insertion order, and `json.dumps` uses
the default separators `", "` and `": "` with `ensure_ascii=True`. -/

mutual
inductive JValue where
  | jnull : JValue
  | jbool : Bool → JValue
  | jint : Int → JValue
  | jnum : ℚ → JValue
  | jstr : String → JValue
  | jobj : JMembers → JValue
inductive JMembers where
  | nil : JMembers
  | cons : String → JValue → JMembers → JMembers
end

/-- Member lookup as Python evaluates `parsed[key]`: later duplicates of a
key overwrite earlier ones when the dict is built. -/
def JMembers.lookupLast : JMembers → String → Option JValue
  | .nil, _ => none
  | .cons k v rest, key =>
    match rest.lookupLast key with
    | some r => some r
    | none => if k = key then some v else none

def JValue.getMember : JValue → String → Option JValue
  | .jobj ms, key => ms.lookupLast key
  | _, _ => none

/-- `json.dumps` string escaping with `ensure_ascii=True`: printable ASCII
other than `"` and `\` is literal, the named control escapes are used for
BS/TAB/LF/FF/CR, everything else becomes `\uXXXX` (astral code points as a
surrogate pair). -/
def escapeChar (c : Char) : List Char :=
  if c = '"' then ['\\', '"']
  else if c = '\\' then ['\\', '\\']
  else if c.toNat = 8 then ['\\', 'b']
  else if c.toNat = 9 then ['\\', 't']
  else if c.toNat = 10 then ['\\', 'n']
  else if c.toNat = 12 then ['\\', 'f']
  else if c.toNat = 13 then ['\\', 'r']
  else if 32 ≤ c.toNat ∧ c.toNat ≤ 126 then [c]
  else if c.toNat < 65536 then '\\' :: 'u' :: natToHex 4 c.toNat
  else
    ('\\' :: 'u' :: natToHex 4 (55296 + (c.toNat - 65536) / 1024)) ++
      ('\\' :: 'u' :: natToHex 4 (56320 + (c.toNat - 65536) % 1024))

def escapeL (cs : List Char) : List Char := cs.flatMap escapeChar

mutual
def jdumpsL : JValue → List Char
  | .jnull => ['n', 'u', 'l', 'l']
  | .jbool true => ['t', 'r', 'u', 'e']
  | .jbool false => ['f', 'a', 'l', 's', 'e']
  | .jint i => intDigits i
  | .jnum q => renderNumL q
  | .jstr s => '"' :: (escapeL s.toList ++ ['"'])
  | .jobj ms => '{' :: (jdumpsMembers ms ++ ['}'])
def jdumpsMembers : JMembers → List Char
  | .nil => []
  | .cons k v .nil => '"' :: (escapeL k.toList ++ '"' :: ':' :: ' ' :: jdumpsL v)
  | .cons k v (.cons k2 v2 rest) =>
    ('"' :: (escapeL k.toList ++ '"' :: ':' :: ' ' :: jdumpsL v)) ++
      ',' :: ' ' :: jdumpsMembers (.cons k2 v2 rest)
end

/-- `json.dumps` on a document. -/
def jdumps (v : JValue) : String := String.mk (jdumpsL v)

/-! ## JSON parsing (`json.loads`) -/

def isWsChar (c : Char) : Bool := c = ' ' || c = '\t' || c = '\n' || c = '\r'

def skipWs : List Char → List Char
  | [] => []
  | c :: rest => if isWsChar c then skipWs rest else c :: rest

def hexVal (c : Char) : Option Nat :=
  if '0' ≤ c ∧ c ≤ '9' then some (c.toNat - 48)
  else if 'a' ≤ c ∧ c ≤ 'f' then some (c.toNat - 87)
  else if 'A' ≤ c ∧ c ≤ 'F' then some (c.toNat - 55)
  else none

def hex4 (a b c d : Char) : Option Nat := do
  let x ← hexVal a
  let y ← hexVal b
  let z ← hexVal c
  let w ← hexVal d
  some (x * 4096 + y * 256 + z * 16 + w)

def escCharVal (c : Char) : Option Char :=
  if c = '"' then some '"'
  else if c = '\\' then some '\\'
  else if c = '/' then some '/'
  else if c = 'b' then some (Char.ofNat 8)
  else if c = 'f' then some (Char.ofNat 12)
  else if c = 'n' then some (Char.ofNat 10)
  else if c = 'r' then some (Char.ofNat 13)
  else if c = 't' then some (Char.ofNat 9)
  else none

/-- Read `\\uXXXX` low-surrogate continuation (after a high surrogate). -/
def parseLowSurrogate : List Char → Option (Nat × List Char)
  | '\\' :: 'u' :: g1 :: g2 :: g3 :: g4 :: rest4 =>
    (match hex4 g1 g2 g3 g4 with
     | none => none
     | some m => if 56320 ≤ m ∧ m < 57344 then some (m, rest4) else none)
  | _ => none

/-- Decode one `\\uXXXX` escape (after the `\\u`), recombining a valid
surrogate pair as `json.loads` does; lone surrogates are rejected (a Lean
`Char` cannot hold them — `json.dumps` output never contains them). -/
def parseUEscape : List Char → Option (Char × List Char)
  | h1 :: h2 :: h3 :: h4 :: rest3 =>
    (match hex4 h1 h2 h3 h4 with
     | none => none
     | some n =>
       if 55296 ≤ n ∧ n < 56320 then
         match parseLowSurrogate rest3 with
         | some (m, rest4) =>
           some (Char.ofNat (65536 + (n - 55296) * 1024 + (m - 56320)), rest4)
         | none => none
       else if 56320 ≤ n ∧ n < 57344 then none
       else some (Char.ofNat n, rest3))
  | _ => none

/-- Parse the inside of a JSON string literal (after the opening quote),
returning the decoded characters and the input after the closing quote. -/
def parseJStrGo : Nat → List Char → Option (List Char × List Char)
  | _, [] => none
  | 0, _ :: _ => none
  | fuel + 1, c :: rest =>
    if c = '"' then some ([], rest)
    else if c = '\\' then
      match rest with
      | [] => none
      | e :: rest2 =>
        if e = 'u' then
          match parseUEscape rest2 with
          | some (d, rest3) => (parseJStrGo fuel rest3).map (fun p => (d :: p.1, p.2))
          | none => none
        else
          match escCharVal e with
          | some d => (parseJStrGo fuel rest2).map (fun p => (d :: p.1, p.2))
          | none => none
    else (parseJStrGo fuel rest).map (fun p => (c :: p.1, p.2))

def parseJStrL (cs : List Char) : Option (List Char × List Char) :=
  parseJStrGo cs.length cs

def parseExpDigits (q : ℚ) (sgn : Bool) (cs : List Char) : Option (JValue × List Char) :=
  let ds := cs.takeWhile Char.isDigit
  let rest := cs.dropWhile Char.isDigit
  if ds = [] then none
  else
    let e : ℤ := if sgn then -(digitsVal 0 ds : ℤ) else (digitsVal 0 ds : ℤ)
    some (.jnum (q * 10 ^ e), rest)

def parseExpSign (q : ℚ) : List Char → Option (JValue × List Char)
  | '+' :: t => parseExpDigits q false t
  | '-' :: t => parseExpDigits q true t
  | t => parseExpDigits q false t

def parseNumTail (q : ℚ) (i : Int) (isFloat : Bool) (cs : List Char) :
    Option (JValue × List Char) :=
  if cs.head? = some 'e' ∨ cs.head? = some 'E' then parseExpSign q cs.tail
  else if isFloat then some (.jnum q, cs)
  else some (.jint i, cs)

def parseNumCore (neg : Bool) (cs1 : List Char) : Option (JValue × List Char) :=
  let ip := cs1.takeWhile Char.isDigit
  let cs2 := cs1.dropWhile Char.isDigit
  if ip = [] then none
  else if cs2.head? = some '.' then
    let cs3 := cs2.tail
    let fp := cs3.takeWhile Char.isDigit
    let cs4 := cs3.dropWhile Char.isDigit
    if fp = [] then none
    else
      let qpos : ℚ := (digitsVal 0 ip : ℚ) + (digitsVal 0 fp : ℚ) / 10 ^ fp.length
      parseNumTail (if neg then -qpos else qpos) 0 true cs4
  else
    let n : Nat := digitsVal 0 ip
    parseNumTail (if neg then -(n : ℚ) else (n : ℚ)) (if neg then -(n : ℤ) else (n : ℤ))
      false cs2

def parseNumber : List Char → Option (JValue × List Char)
  | [] => none
  | c :: t => if c = '-' then parseNumCore true t else parseNumCore false (c :: t)

mutual
def parseValueCore (fuel : Nat) (c : Char) (rest : List Char) :
    Option (JValue × List Char) :=
  if c = 'n' then
    match rest with
    | 'u' :: 'l' :: 'l' :: r => some (.jnull, r)
    | _ => none
  else if c = 't' then
    match rest with
    | 'r' :: 'u' :: 'e' :: r => some (.jbool true, r)
    | _ => none
  else if c = 'f' then
    match rest with
    | 'a' :: 'l' :: 's' :: 'e' :: r => some (.jbool false, r)
    | _ => none
  else if c = '"' then (parseJStrL rest).map (fun p => (.jstr (String.mk p.1), p.2))
  else if c = '{' then
    let cs2 := skipWs rest
    if cs2.head? = some '}' then some (.jobj .nil, cs2.tail)
    else (parseMembers fuel cs2).map (fun p => (.jobj p.1, p.2))
  else if c = '-' ∨ c.isDigit then parseNumber (c :: rest)
  else none
termination_by (fuel, 1)
def parseValue : Nat → List Char → Option (JValue × List Char)
  | 0, _ => none
  | fuel + 1, cs =>
    match skipWs cs with
    | [] => none
    | c :: rest => parseValueCore fuel c rest
termination_by fuel cs => (fuel, 0)
def parseMembers : Nat → List Char → Option (JMembers × List Char)
  | 0, _ => none
  | fuel + 1, cs =>
    match cs with
    | '"' :: rest =>
      (match parseJStrL rest with
       | none => none
       | some (k, r1) =>
         if (skipWs r1).head? = some ':' then
           (match parseValue fuel (skipWs r1).tail with
            | none => none
            | some (v, r3) =>
              if (skipWs r3).head? = some ',' then
                (match parseMembers fuel (skipWs (skipWs r3).tail) with
                 | some (ms, r5) => some (.cons (String.mk k) v ms, r5)
                 | none => none)
              else if (skipWs r3).head? = some '}' then
                some (.cons (String.mk k) v .nil, (skipWs r3).tail)
              else none)
         else none)
    | _ => none
termination_by fuel cs => (fuel, 0)
end

/-- `json.loads`: parse a complete document; trailing whitespace is allowed,
any other trailing input is an error. -/
def jloads (s : String) : Option JValue :=
  match parseValue (s.length + 1) s.toList with
  | some (v, rest) => if skipWs rest = [] then some v else none
  | none => none

-- Fuel bound sufficient for `parseValue` on this document.
mutual
def jsize : JValue → Nat
  | .jobj ms => 1 + jsizeM ms
  | _ => 1
def jsizeM : JMembers → Nat
  | .nil => 0
  | .cons _ v rest => 1 + jsize v + jsizeM rest
end

/-- The rationals that have an exact finite decimal expansion within the
range of `renderNumL`; every IEEE-754 double is such a rational. -/
def QRenderable (q : ℚ) : Prop := ∃ z : ℤ, q * 10 ^ RCAP = (z : ℚ)

/-- The exact value of an IEEE-754 double: `m * 2 ^ e` with `e ≥ -1074`, so
its product with `10 ^ 1074` is an integer.  Every Python float satisfies
this, and `RCAP = 1110` leaves margin for the codec's arithmetic on it. -/
def DoubleRenderable (q : ℚ) : Prop := ∃ z : ℤ, q * 10 ^ 1074 = (z : ℚ)

-- Well-formedness for exact JSON round-tripping: every float leaf is a
-- renderable rational (true of every document whose floats are doubles).
mutual
def JWF : JValue → Prop
  | .jnum q => QRenderable q
  | .jobj ms => JWFm ms
  | _ => True
def JWFm : JMembers → Prop
  | .nil => True
  | .cons _ v rest => JWF v ∧ JWFm rest
end

/-! ## String helpers for the Python idioms `h.hexdigest()[:n]` etc. -/

def sha256OfString (s : String) : String := String.mk (sha256hexL (utf8EncodeL s.toList))

def sha512OfString (s : String) : String := String.mk (sha512hexL (utf8EncodeL s.toList))

/-- Python slicing `s[:n]`. -/
def strTake (s : String) (n : Nat) : String := String.mk (s.toList.take n)

/-- Python `str` of a nonnegative int. -/
def natRepr (n : Nat) : String := String.mk (natDigits n)

/-- Python `int()` truncation on a nonnegative rational (= floor there). -/
def pyIntNonneg (q : ℚ) : Nat := (⌊q⌋).toNat

/-- `f"{n:02d}"` for a nonnegative int. -/
def twoDigits (n : Nat) : List Char :=
  if n < 10 then '0' :: natDigits n else natDigits n

/-- `f"{n:03d}"` for a nonnegative int. -/
def threeDigits (n : Nat) : List Char :=
  if n < 10 then '0' :: '0' :: natDigits n
  else if n < 100 then '0' :: natDigits n
  else natDigits n

/-- Round-half-even to an integer (the rounding Python's fixed-point float
formatting applies). -/
def rhe (q : ℚ) : ℤ :=
  let f := ⌊q⌋
  if q - f < 1/2 then f
  else if 1/2 < q - f then f + 1
  else if f % 2 = 0 then f else f + 1

/-- `f"{x:.3f}"` for nonnegative values. -/
def format3 (q : ℚ) : String :=
  let n := (rhe (q * 1000)).toNat
  String.mk (natDigits (n / 1000) ++ '.' :: threeDigits (n % 1000))

/-! ## The intention packet codec (`PacketHeader`, `IntentionPacket`) -/

/-- The decimal literal `7.83` of the source, taken exactly. -/
def SCHUMANN_RESONANCE : ℚ := 783 / 100

structure PacketHeader where
  version : Nat
  type : Nat
  length : Nat
  sequence_id : Nat
  timestamp : Nat
  checksum : Option String

/-- `PacketHeader.to_dict` (insertion order of the Python dict). -/
def PacketHeader.toDict (h : PacketHeader) : JValue :=
  .jobj (.cons "version" (.jint h.version) (.cons "type" (.jint h.type)
    (.cons "length" (.jint h.length) (.cons "sequenceId" (.jint h.sequence_id)
    (.cons "timestamp" (.jint h.timestamp)
    (.cons "checksum" (match h.checksum with | none => .jnull | some s => .jstr s)
      .nil))))))

/-- `IntentionPacket._calculate_checksum`: first 16 hex characters of the
SHA-256 digest of the UTF-8 bytes of the payload string. -/
def calculate_checksum (payload : String) : String :=
  String.mk ((sha256hexL (utf8EncodeL payload.toList)).take 16)

structure IntentionPacket where
  intention : String
  frequency : ℚ
  field_type : String
  target_device : String
  energy_signature : String
  quantum_key : String
  intention_strength : ℚ
  payload : JValue
  header : PacketHeader
  metadata : JValue

/-- `IntentionPacket.__init__`.  The `secrets.token_hex(8)` /
`secrets.token_hex(16)` randomness is passed as the byte lists
`esBytes`/`qkBytes`, and the shared sequence counter value and wall-clock
timestamp are the explicit arguments `seq`/`ts`. -/
def IntentionPacket.build (intention : String) (frequency : ℚ) (field_type : String)
    (target_device : String) (esBytes qkBytes : List Nat) (seq ts : Nat) :
    IntentionPacket :=
  let energy_signature := String.mk (bytesToHexL esBytes)
  let quantum_key := String.mk (bytesToHexL qkBytes)
  let intention_strength := min ((intention.length : ℚ) * frequency / 100) 100
  let payload : JValue := .jobj (.cons "intention" (.jstr intention)
    (.cons "frequency" (.jnum frequency) (.cons "field_type" (.jstr field_type)
    (.cons "energy_signature" (.jstr energy_signature)
    (.cons "quantum_entanglement_key" (.jstr quantum_key) .nil)))))
  let payload_str := jdumps payload
  { intention := intention, frequency := frequency, field_type := field_type,
    target_device := target_device, energy_signature := energy_signature,
    quantum_key := quantum_key, intention_strength := intention_strength,
    payload := payload,
    header := { version := 1, type := 1, length := payload_str.length,
                sequence_id := seq, timestamp := ts,
                checksum := some (calculate_checksum payload_str) },
    metadata := .jobj (.cons "source_device" (.jstr "sacred-python-platform")
      (.cons "target_device" (.jstr target_device)
      (.cons "intention_strength" (.jnum intention_strength)
      (.cons "sacred_encoding" (.jstr "merkaba-torus-fibonacci") .nil)))) }

/-- `IntentionPacket.to_dict`. -/
def IntentionPacket.toDict (p : IntentionPacket) : JValue :=
  .jobj (.cons "header" p.header.toDict
    (.cons "payload" p.payload (.cons "metadata" p.metadata .nil)))

/-- `IntentionPacket.to_json`. -/
def IntentionPacket.toJson (p : IntentionPacket) : String := jdumps p.toDict

/-- `IntentionPacket.to_base64`. -/
def IntentionPacket.toBase64 (p : IntentionPacket) : String :=
  String.mk (b64EncodeL (utf8EncodeL p.toJson.toList))

/-- `extract_intention_from_packet`: any failure along the way (bad base64,
bad UTF-8, invalid JSON, missing key) is caught and yields `none`.  For
documents built by the codec the extracted value is always a string. -/
def extract_intention_from_packet (packet_base64 : String) : Option String := do
  let bytes ← b64DecodeL packet_base64.toList
  let chars ← utf8DecodeL bytes
  let packet ← jloads (String.mk chars)
  let payload ← packet.getMember "payload"
  let iv ← payload.getMember "intention"
  match iv with
  | .jstr s => some s
  | _ => none

/-- The checksum recomputation of the spec's checksum-correctness property:
decode the transport string, re-serialize the recovered payload, and hash it
the way `_calculate_checksum` does. -/
def recomputeChecksum (packet_base64 : String) : Option String := do
  let bytes ← b64DecodeL packet_base64.toList
  let chars ← utf8DecodeL bytes
  let packet ← jloads (String.mk chars)
  let payload ← packet.getMember "payload"
  some (calculate_checksum (jdumps payload))

/-! ## Sacred geometry constants (exact values of the Python doubles) -/

/-- Exact value of the double `(1 + 5 ** 0.5) / 2` the code computes. -/
def PHI : ℚ := 910872158600853 / 562949953421312

/-- Exact value of the double `3 ** 0.5`. -/
def SQRT3 : ℚ := 3900231685776981 / 2251799813685248

def FIBONACCI : List Nat := [1, 1, 2, 3, 5, 8, 13, 21, 34, 55, 89, 144, 233, 377, 610, 987]

def METATRON : List Nat := [3, 6, 9, 12, 15, 18, 21, 24, 27, 30, 33, 36, 39, 42, 45, 48]

def SOLFEGGIO : List Nat := [396, 417, 528, 639, 741, 852, 963]

def PLANETARY_ANGLES : List (String × Nat) :=
  [("sun", 0), ("moon", 30), ("mercury", 60), ("venus", 90), ("mars", 120),
   ("jupiter", 150), ("saturn", 180), ("uranus", 210), ("neptune", 240), ("pluto", 270)]

/-- Exact values of the doubles `PHI ** k` for `k = 1..7`, the only exponents
`divine_proportion_amplify` evaluates (it uses `(i % 7) + 1`).  For every
character code of a hex digit (the only characters of a hexdigest) and every
such `k`, `int((code * (PHI ** k)) % 100)` computed in IEEE doubles equals
the value this exact rational model computes (checked exhaustively over that
whole domain), so the model reproduces the float computation bit-for-bit. -/
def phiPowFloat : Nat → ℚ
  | 1 => 910872158600853 / 562949953421312
  | 2 => 1473822112022165 / 562949953421312
  | 3 => 1192347135311509 / 281474976710656
  | 4 => 7717032765290367 / 1125899906842624
  | 5 => 3121605326634101 / 281474976710656
  | 6 => 5050863517956693 / 281474976710656
  | 7 => 4086234422295397 / 140737488355328
  | _ => 0

/-! ## `SacredGeometryCalculator` -/

structure DivineAmplifyResult where
  original : String
  phi_amplified : String
  fibonacci_multiplier : Nat
  metatronic_alignment : Nat

/-- `SacredGeometryCalculator.divine_proportion_amplify`. -/
def divine_proportion_amplify (intention : String) (multiplier : ℚ) :
    Except String DivineAmplifyResult :=
  if intention = "" then .error "Intention cannot be empty"
  else
    let intention_hash : List Char := sha512hexL (utf8EncodeL intention.toList)
    let phi_segments : List (List Char) := intention_hash.enum.map (fun ic =>
      twoDigits (pyIntNonneg (pyFmod ((ic.2.toNat : ℚ) * phiPowFloat (ic.1 % 7 + 1)) 100)))
    let amplified : List Char := phi_segments.flatten
    let spiral_hash := sha256OfString (String.mk (amplified ++ intention.toList))
    -- `next((f for f in FIBONACCI if f >= multiplier), FIBONACCI[-1])`; 987 is FIBONACCI[-1]
    let fib_multiplier := (FIBONACCI.find? (fun f : ℕ => decide (multiplier ≤ (f : ℚ)))).getD 987
    let s := (intention.toList.map Char.toNat).sum
    .ok { original := intention, phi_amplified := spiral_hash,
          fibonacci_multiplier := fib_multiplier,
          metatronic_alignment := if s % 9 = 0 then 9 else s % 9 }

structure MerkabaResult where
  intention : String
  tetra_up : String
  tetra_down : String
  merkaba_frequency : ℚ
  solfeggio_alignment : Nat
  field_intensity : ℚ
  activation_code : String

/-- First element of `l` minimizing `key` (Python `min(l, key=...)`: only a
strict improvement moves the champion, so ties keep the earlier element). -/
def argminFirst (key : Nat → ℚ) : List Nat → Nat
  | [] => 0
  | x :: rest => rest.foldl (fun best y => if key y < key best then y else best) x

/-- `SacredGeometryCalculator.merkaba_field_generator`. -/
def merkaba_field_generator (intention : String) (frequency : ℚ) :
    Except String MerkabaResult :=
  if intention = "" then .error "Intention cannot be empty"
  else if frequency ≤ 0 then .error "Frequency must be positive"
  else
    let tetra_up := strTake (sha256OfString (intention ++ "ascend")) 12
    let tetra_down := strTake (sha256OfString (intention ++ "descend")) 12
    let closest_solfeggio := argminFirst (fun x => |(x : ℚ) - frequency * 100|) SOLFEGGIO
    let r := pyFmod frequency 9
    let field_intensity := frequency * SQRT3 / PHI * (if r = 0 then 9 else r)
    .ok { intention := intention, tetra_up := tetra_up, tetra_down := tetra_down,
          merkaba_frequency := frequency, solfeggio_alignment := closest_solfeggio,
          field_intensity := field_intensity,
          activation_code := String.mk (intDigits ⌊field_intensity⌋ ++ ' ' ::
            intDigits ⌊frequency * PHI⌋ ++ ' ' :: intDigits ⌊(closest_solfeggio : ℚ) / PHI⌋) }

structure FlowerOfLifeResult where
  intention : String
  flower_pattern : String
  planetary_alignment : String
  cosmic_degree : ℚ
  optimal_duration : Int
  vesica_pisces_code : String

/-- The angle part of the seed string `f"{intention}:{angle}:{radius}"`:
the exact Python `str` of the double `i * (360 / 7)`. -/
def seedAngleStr : Nat → String
  | 0 => "0.0"
  | 1 => "51.42857142857143"
  | 2 => "102.85714285714286"
  | 3 => "154.28571428571428"
  | 4 => "205.71428571428572"
  | 5 => "257.14285714285717"
  | 6 => "308.57142857142856"
  | _ => ""

/-- The radius part of the seed string: exact Python `str` of the double
`(i + 1) * PHI`. -/
def seedRadiusStr : Nat → String
  | 0 => "1.618033988749895"
  | 1 => "3.23606797749979"
  | 2 => "4.854101966249685"
  | 3 => "6.47213595499958"
  | 4 => "8.090169943749475"
  | 5 => "9.70820393249937"
  | 6 => "11.326237921249264"
  | _ => ""

/-- One seed-of-life circle hash:
`sha256(f"{intention}:{angle}:{radius}".encode()).hexdigest()[:8]`. -/
def seedHash (intention : String) (i : Nat) : String :=
  strTake (sha256OfString (intention ++ ":" ++ seedAngleStr i ++ ":" ++ seedRadiusStr i)) 8

/-- `SacredGeometryCalculator.flower_of_life_pattern`.  The wall-clock read
`datetime.now()` is passed in as `hour`/`minute`. -/
def flower_of_life_pattern (intention : String) (duration : Int) (hour minute : Nat) :
    Except String FlowerOfLifeResult :=
  if intention = "" then .error "Intention cannot be empty"
  else if duration ≤ 0 then .error "Duration must be positive"
  else
    let cosmic_degree : ℚ := (hour : ℚ) * 15 + (minute : ℚ) / 4
    let closest := PLANETARY_ANGLES.foldl
      (fun best pa =>
        if |(pa.2 : ℚ) - cosmic_degree| < best.2 then (pa.1, |(pa.2 : ℚ) - cosmic_degree|)
        else best)
      ("sun", 360)
    let seed_patterns := (List.range 7).map (seedHash intention)
    let optimal_duration := max duration ⌊(duration : ℚ) * PHI⌋
    .ok { intention := intention, flower_pattern := String.join seed_patterns,
          planetary_alignment := closest.1, cosmic_degree := cosmic_degree,
          optimal_duration := optimal_duration,
          vesica_pisces_code := (seed_patterns.getD 0 "") ++ " " ++
            (seed_patterns.getD 3 "") ++ " " ++ (seed_patterns.getD 6 "") }

structure MetatronResult where
  intention : String
  metatron_code : String
  harmonic : Nat
  platonic_solids : List (String × String)
  activation_key : String

/-- `SacredGeometryCalculator.metatrons_cube_amplifier`. -/
def metatrons_cube_amplifier (intention : String) (boost : Bool) :
    Except String MetatronResult :=
  if intention = "" then .error "Intention cannot be empty"
  else
    let intention_spheres := (List.range 13).map (fun i =>
      strTake (sha512OfString (intention ++ natRepr (METATRON.getD (i % METATRON.length) 0))) 6)
    let metatron_code :=
      if boost then String.join intention_spheres
      else String.join (intention_spheres.take 5)
    let s := (intention.toList.map Char.toNat).sum
    let harmonic := if s % 9 = 0 then 9 else s % 9
    .ok { intention := intention, metatron_code := metatron_code, harmonic := harmonic,
          platonic_solids := [("tetrahedron", intention_spheres.getD 0 ""),
            ("hexahedron", intention_spheres.getD 1 ""),
            ("octahedron", intention_spheres.getD 2 ""),
            ("dodecahedron", intention_spheres.getD 3 ""),
            ("icosahedron", intention_spheres.getD 4 "")],
          activation_key := natRepr (harmonic * 3) ++ "-" ++ natRepr (harmonic * 6) ++
            "-" ++ natRepr (harmonic * 9) }

structure TorusResult where
  intention : String
  torus_frequency : ℚ
  schumann_ratio_str : String -- source dict key "schumann_ratio", an f-string
  inner_flow : String
  outer_flow : String
  phase_angle : ℚ
  coherence_str : String -- source dict key "coherence", an f-string
  tesla_node : Nat
  activation_sequence : String

/-- `SacredGeometryCalculator.torus_field_generator`.  The literal `0.618`
is taken at its decimal value, like `7.83`. -/
def torus_field_generator (intention : String) (hz : ℚ) : Except String TorusResult :=
  if intention = "" then .error "Intention cannot be empty"
  else if hz ≤ 0 then .error "Frequency must be positive"
  else
    let schumann_ratio := hz / SCHUMANN_RESONANCE
    let inner_flow := strTake (sha512OfString (intention ++ "inner")) 12
    let outer_flow := strTake (sha512OfString (intention ++ "outer")) 12
    let phase_angle := pyFmod (hz * 360) 360
    let coherence := 618 / 1000 * schumann_ratio
    let tesla_node := argminFirst (fun x => |(x : ℚ) - pyFmod hz 10|) [3, 6, 9]
    .ok { intention := intention, torus_frequency := hz,
          schumann_ratio_str := format3 schumann_ratio,
          inner_flow := inner_flow, outer_flow := outer_flow,
          phase_angle := phase_angle, coherence_str := format3 coherence,
          tesla_node := tesla_node,
          activation_sequence := natRepr tesla_node ++ natRepr tesla_node ++
            strTake inner_flow tesla_node }

structure SriYantraResult where
  intention : String
  triangles : List String
  bindu : String
  circuits : List String
  inner_triangle : String
  outer_triangle : String
  yantra_code : String

/-- `SacredGeometryCalculator.sri_yantra_encoder`.  (The source also
computes `marma_points`, a SHA-512 of the joined triangles, but never
returns it; it is omitted here.) -/
def sri_yantra_encoder (intention : String) : Except String SriYantraResult :=
  if intention = "" then .error "Intention cannot be empty"
  else
    let triangles := (List.range 9).map (fun i =>
      let salt := if i % 2 = 0 then "shiva" ++ natRepr i else "shakti" ++ natRepr i
      strTake (sha256OfString (intention ++ salt)) 8)
    let bindu := strTake (sha256OfString (intention ++ "bindu")) 9
    let circuits := (List.range 9).map (fun i =>
      strTake (sha256OfString ((triangles.getD i "") ++ bindu)) 6)
    .ok { intention := intention, triangles := triangles, bindu := bindu,
          circuits := circuits, inner_triangle := triangles.getD 0 "",
          outer_triangle := triangles.getD 8 "",
          yantra_code := strTake bindu 3 ++ "-" ++ strTake (triangles.getD 0 "") 3 ++
            "-" ++ strTake (triangles.getD 8 "") 3 }

/-! ## Broadcast hub (`broadcast_message` over `WEBSOCKET_CLIENTS`) -/

/-- One `broadcast_message` call over the registry `clients`, where
`fails c` says whether `websocket.send` raises for client `c` (the
per-client behaviour during this call).  Returns the set of clients the
message was delivered to, and the registry after the call: a failing
client's exception is caught, logged, and the client discarded, without
stopping the iteration over the snapshot.  With an empty registry the
function returns at once (before any packet embedding is attempted). -/
def broadcast_message (σ : Type) [DecidableEq σ] (fails : σ → Bool)
    (clients : Finset σ) : Finset σ × Finset σ :=
  if clients = ∅ then (∅, ∅)
  else (clients.filter (fun c => fails c = false),
        clients.filter (fun c => fails c = false))

/-! ## Per-connection INTENTION handling (`handle_websocket`) -/

/-- The `data` object of an inbound INTENTION message; each field may be
absent (`dict.get` with a default). -/
structure InboundData where
  intention : Option String
  frequency : Option ℚ
  boost : Option Bool
  multiplier : Option ℚ

/-- The sends the INTENTION branch performs, in order. -/
inductive WSAction where
  | broadcastEcho (intention : String) (frequency : ℚ) (boost : Bool) (multiplier : ℚ)
  | broadcastTorus (t : TorusResult)
  | broadcastAmplified (a : DivineAmplifyResult)
  | replySystemError (msg : String)

/-- The INTENTION branch of `handle_websocket`, as the ordered list of sends
it performs.  The echo broadcast always happens first; the geometry steps
run only under `if intention:` (Python truthiness: the empty string skips
them); an exception from a calculator is caught by the per-message handler
and becomes a SYSTEM error reply to the originating connection only. -/
def handleIntentionMessage (d : InboundData) : List WSAction :=
  let intention := d.intention.getD ""
  let frequency := d.frequency.getD SCHUMANN_RESONANCE
  let boost := d.boost.getD false
  let multiplier := d.multiplier.getD 1
  let echo := WSAction.broadcastEcho intention frequency boost multiplier
  if intention = "" then [echo]
  else
    match torus_field_generator intention frequency with
    | .error _ => [echo, .replySystemError "Error processing message"]
    | .ok t =>
      if boost then
        match divine_proportion_amplify intention multiplier with
        | .error _ => [echo, .broadcastTorus t, .replySystemError "Error processing message"]
        | .ok a => [echo, .broadcastTorus t, .broadcastAmplified a]
      else [echo, .broadcastTorus t]

/-! ## Auxiliary predicates and spec-side definitions -/

/-- The trailing input after a number cannot extend the number literal. -/
def NumBoundary : List Char → Prop
  | [] => True
  | c :: _ => c.isDigit = false ∧ c ≠ '.' ∧ c ≠ 'e' ∧ c ≠ 'E'

/-- Lower-case hex digit, the alphabet of `hexdigest`/`token_hex` output. -/
def isLowerHex (c : Char) : Bool := c.isDigit || ('a' ≤ c && c ≤ 'f')

/-- Spec-side definition, following the spec's words for the seed hash of
FlowerOfLife: SHA-256 of "the concatenation intention + angle + radius"
(no separators), truncated to 8 hex characters.  To be compared with
`seedHash`, which the code computes from `f"{intention}:{angle}:{radius}"`. -/
def seedHashSpec (intention : String) (i : Nat) : String :=
  strTake (sha256OfString (intention ++ seedAngleStr i ++ seedRadiusStr i)) 8

/-- Spec-side definition: "the smallest value in the fixed Fibonacci
sequence that is ≥ multiplier, or the sequence's last value (987) if none
qualifies". -/
def specFibMultiplier (m : ℚ) : Nat :=
  ((FIBONACCI.filter (fun f : ℕ => decide (m ≤ (f : ℚ)))).min?).getD 987

/-- Spec-side definition: one segment of the spec's phi-amplification
formula, `floor(charCode * phi^k) mod 100` zero-padded to two digits
(the code computes `int((charCode * PHI ** k) % 100)`; the two agree). -/
def specPhiSegment (code k : Nat) : List Char :=
  twoDigits (((⌊(code : ℚ) * phiPowFloat k⌋) % 100).toNat)

/-- Spec-side definition: the final signature of the spec's DivineAmplify
formula — SHA-256 of the concatenated per-character segments of the
SHA-512 hex digest of the intention, followed by the intention itself. -/
def specPhiAmplified (I : String) : String :=
  sha256OfString (String.mk
    (((sha512hexL (utf8EncodeL I.toList)).enum.map (fun ic =>
        specPhiSegment ic.2.toNat (ic.1 % 7 + 1))).flatten ++ I.toList))

/-! # Lemmas: characters and digits -/

theorem char_toNat_ofNat (n : Nat) (h : n.isValidChar) : (Char.ofNat n).toNat = n := by
  unfold Char.ofNat
  rw [dif_pos h]
  simp only [Char.toNat, Char.ofNatAux]
  exact BitVec.toNat_ofNatLt n _

theorem char_toNat_lt (c : Char) : c.toNat < 1114112 := by
  have h := c.valid
  have he : c.toNat = c.val.toNat := rfl
  rcases h with h | h <;> omega

theorem char_not_surrogate (c : Char) : c.toNat < 55296 ∨ 57344 ≤ c.toNat := by
  have h := c.valid
  have he : c.toNat = c.val.toNat := rfl
  rcases h with h | h <;> omega

theorem char_eq_of_toNat {c d : Char} (h : c.toNat = d.toNat) : c = d := by
  rw [← Char.ofNat_toNat c, h, Char.ofNat_toNat]

theorem isDigit_toNat {c : Char} (h : c.isDigit = true) : 48 ≤ c.toNat ∧ c.toNat ≤ 57 := by
  simp [Char.isDigit] at h
  exact ⟨h.1, h.2⟩

theorem digitChar_toNat (n : Nat) : (digitChar n).toNat = 48 + n % 10 :=
  char_toNat_ofNat _ (Or.inl (by omega))

theorem toNat_isDigit {c : Char} (h1 : 48 ≤ c.toNat) (h2 : c.toNat ≤ 57) :
    c.isDigit = true := by
  simp [Char.isDigit]
  exact ⟨h1, h2⟩

theorem digitChar_isDigit (n : Nat) : (digitChar n).isDigit = true :=
  toNat_isDigit (by rw [digitChar_toNat]; omega) (by rw [digitChar_toNat]; omega)

/-! # Lemmas: UTF-8 round-trip on ASCII -/

theorem utf8EncodeChar_ascii {c : Char} (h : c.toNat < 128) : utf8EncodeChar c = [c.toNat] := by
  simp [utf8EncodeChar, h]

theorem utf8DecodeStep_ascii (b : Nat) (hb : b < 128) (l : List Nat) :
    utf8DecodeStep (b :: l) = some (Char.ofNat b, l) := by
  simp [utf8DecodeStep, hb]

theorem utf8DecodeGo_encode_ascii : ∀ (cs : List Char) (fuel : Nat),
    cs.length ≤ fuel → (∀ c ∈ cs, c.toNat < 128) →
    utf8DecodeGo fuel (utf8EncodeL cs) = some cs := by
  intro cs
  induction cs with
  | nil => intro fuel _ _; cases fuel <;> rfl
  | cons c rest ih =>
    intro fuel hfuel h
    have hc : c.toNat < 128 := h c (by simp)
    have step : utf8EncodeL (c :: rest) = c.toNat :: utf8EncodeL rest := by
      simp [utf8EncodeL, utf8EncodeChar_ascii hc]
    rcases fuel with _ | fuel
    · simp at hfuel
    · rw [step]
      have hcons : ∃ b l, c.toNat :: utf8EncodeL rest = b :: l := ⟨_, _, rfl⟩
      simp only [utf8DecodeGo, utf8DecodeStep_ascii _ hc]
      rw [ih fuel (by simpa using hfuel) (fun x hx => h x (by simp [hx]))]
      simp [Char.ofNat_toNat]

theorem utf8_rt_ascii (cs : List Char) (h : ∀ c ∈ cs, c.toNat < 128) :
    utf8DecodeL (utf8EncodeL cs) = some cs := by
  unfold utf8DecodeL
  refine utf8DecodeGo_encode_ascii cs _ ?_ h
  induction cs with
  | nil => simp
  | cons c rest ih =>
    have hc : c.toNat < 128 := h c (by simp)
    simp [utf8EncodeL, utf8EncodeChar_ascii hc] at ih ⊢
    have := ih (fun x hx => h x (by simp [hx]))
    simp [utf8EncodeL] at this
    omega

theorem utf8EncodeL_lt256 : ∀ cs : List Char, ∀ b ∈ utf8EncodeL cs, b < 256 := by
  intro cs b hb
  simp [utf8EncodeL] at hb
  obtain ⟨c, _, hc⟩ := hb
  have hlt := char_toNat_lt c
  simp [utf8EncodeChar] at hc
  split at hc <;> [skip; split at hc] <;> [skip; skip; split at hc] <;>
    simp at hc <;> omega

theorem utf8EncodeL_length_ascii : ∀ cs : List Char, (∀ c ∈ cs, c.toNat < 128) →
    (utf8EncodeL cs).length = cs.length := by
  intro cs h
  induction cs with
  | nil => rfl
  | cons c rest ih =>
    have hc : c.toNat < 128 := h c (by simp)
    simp [utf8EncodeL, utf8EncodeChar_ascii hc] at ih ⊢
    exact ih (fun x hx => h x (by simp [hx]))

/-! # Lemmas: Base64 round-trip -/

theorem b64Val_b64Char : ∀ n < 64, b64Val (b64Char n) = some n := by decide

theorem b64Char_ne_pad : ∀ n < 64, b64Char n ≠ '=' := by decide

theorem b64Char_mod (n : Nat) : b64Char n = b64Char (n % 64) := by
  have h64 : n % 64 % 64 = n % 64 := by omega
  unfold b64Char
  rw [h64]

theorem b64Val_b64Char_any (n : Nat) : b64Val (b64Char n) = some (n % 64) := by
  rw [b64Char_mod]
  exact b64Val_b64Char (n % 64) (Nat.mod_lt _ (by norm_num))

theorem b64Char_ne_pad_any (n : Nat) : b64Char n ≠ '=' := by
  rw [b64Char_mod]
  exact b64Char_ne_pad (n % 64) (Nat.mod_lt _ (by norm_num))

theorem b64DecodeGo_encode : ∀ bs : List Nat, (∀ b ∈ bs, b < 256) →
    b64DecodeGo (b64EncodeL bs) = some bs
  | [], _ => rfl
  | [b1], h => by
    have hb1 : b1 < 256 := h b1 (by simp)
    have h1 := b64Val_b64Char (b1 / 4) (by omega)
    have h2 := b64Val_b64Char (b1 % 4 * 16) (by omega)
    have h3 := b64Char_ne_pad (b1 / 4) (by omega)
    have h4 := b64Char_ne_pad (b1 % 4 * 16) (by omega)
    simp [b64EncodeL, b64DecodeGo, h1, h2]
    omega
  | [b1, b2], h => by
    have hb1 : b1 < 256 := h b1 (by simp)
    have hb2 : b2 < 256 := h b2 (by simp)
    have h1 := b64Val_b64Char (b1 / 4) (by omega)
    have h2 := b64Val_b64Char (b1 % 4 * 16 + b2 / 16) (by omega)
    have h3 := b64Val_b64Char (b2 % 16 * 4) (by omega)
    have h5 := b64Char_ne_pad (b2 % 16 * 4) (by omega)
    simp [b64EncodeL, b64DecodeGo, h1, h2, h3, h5]
    omega
  | b1 :: b2 :: b3 :: rest, h => by
    have hb1 : b1 < 256 := h b1 (by simp)
    have hb2 : b2 < 256 := h b2 (by simp)
    have hb3 : b3 < 256 := h b3 (by simp)
    have h1 := b64Val_b64Char (b1 / 4) (by omega)
    have h2 := b64Val_b64Char (b1 % 4 * 16 + b2 / 16) (by omega)
    have h3 := b64Val_b64Char (b2 % 16 * 4 + b3 / 64) (by omega)
    have h4 := b64Val_b64Char (b3 % 64) (by omega)
    have h5 := b64Char_ne_pad (b2 % 16 * 4 + b3 / 64) (by omega)
    have h6 := b64Char_ne_pad (b3 % 64) (by omega)
    have ih := b64DecodeGo_encode rest (fun x hx => h x (by simp [hx]))
    simp [b64EncodeL, b64DecodeGo, h1, h2, h3, h4, h5, h6, ih]
    refine ⟨by omega, by omega, by omega⟩

theorem b64EncodeL_alphabet : ∀ bs : List Nat, ∀ c ∈ b64EncodeL bs,
    ((b64Val c).isSome || c = '=') = true
  | [], c => by simp [b64EncodeL]
  | [b1], c => by
    intro hc
    simp [b64EncodeL] at hc
    rcases hc with rfl | rfl | rfl | rfl <;> simp [b64Val_b64Char_any]
  | [b1, b2], c => by
    intro hc
    simp [b64EncodeL] at hc
    rcases hc with rfl | rfl | rfl | rfl <;> simp [b64Val_b64Char_any]
  | b1 :: b2 :: b3 :: rest, c => by
    intro hc
    simp [b64EncodeL] at hc
    rcases hc with rfl | rfl | rfl | rfl | hmem
    · simp [b64Val_b64Char_any]
    · simp [b64Val_b64Char_any]
    · simp [b64Val_b64Char_any]
    · simp [b64Val_b64Char_any]
    · exact b64EncodeL_alphabet rest c hmem

theorem b64_rt (bs : List Nat) (h : ∀ b ∈ bs, b < 256) :
    b64DecodeL (b64EncodeL bs) = some bs := by
  unfold b64DecodeL
  rw [List.filter_eq_self.mpr (b64EncodeL_alphabet bs)]
  exact b64DecodeGo_encode bs h

/-! # Lemmas: decimal digit strings -/

theorem natDigits_ne_nil (n : Nat) : natDigits n ≠ [] := by
  rw [natDigits]
  split <;> simp

theorem natDigits_digits (n : Nat) : ∀ c ∈ natDigits n, c.isDigit = true := by
  induction n using Nat.strong_induction_on with
  | _ n ih =>
    rw [natDigits]
    split
    · intro c hc
      simp at hc
      rw [hc]
      exact digitChar_isDigit n
    · next h =>
      intro c hc
      simp at hc
      rcases hc with hc | hc
      · exact ih (n / 10) (by omega) c hc
      · rw [hc]; exact digitChar_isDigit _

theorem digitsVal_cons (acc : Nat) (c : Char) (l : List Char) :
    digitsVal acc (c :: l) = digitsVal (acc * 10 + (c.toNat - 48)) l := rfl

theorem digitsVal_append (acc : Nat) (a b : List Char) :
    digitsVal acc (a ++ b) = digitsVal (digitsVal acc a) b := by
  simp [digitsVal, List.foldl_append]

theorem digitsVal_acc (l : List Char) : ∀ acc,
    digitsVal acc l = acc * 10 ^ l.length + digitsVal 0 l := by
  induction l with
  | nil => intro acc; simp [digitsVal]
  | cons c t ih =>
    intro acc
    rw [digitsVal_cons, ih, digitsVal_cons 0, ih (0 * 10 + (c.toNat - 48))]
    simp [List.length_cons, pow_succ]
    ring

theorem digitsVal_natDigits (n : Nat) : digitsVal 0 (natDigits n) = n := by
  induction n using Nat.strong_induction_on with
  | _ n ih =>
    rw [natDigits]
    split
    · next h =>
      simp [digitsVal, digitChar_toNat]
      omega
    · next h =>
      rw [digitsVal_append, ih (n / 10) (by omega), digitsVal_acc]
      simp [digitsVal, digitChar_toNat]
      omega

theorem digitsVal_zeros (m : Nat) : digitsVal 0 (List.replicate m '0') = 0 := by
  induction m with
  | zero => rfl
  | succ m ih =>
    rw [List.replicate_succ, digitsVal_cons]
    simpa using ih

/-! # Lemmas: takeWhile / dropWhile splitting -/

theorem takeWhile_split {p : Char → Bool} : ∀ (a b : List Char),
    (∀ c ∈ a, p c = true) → (∀ c, b.head? = some c → p c = false) →
    (a ++ b).takeWhile p = a ∧ (a ++ b).dropWhile p = b := by
  intro a
  induction a with
  | nil =>
    intro b _ hb
    cases b with
    | nil => simp
    | cons c t =>
      have := hb c rfl
      simp [List.takeWhile, List.dropWhile, this]
  | cons x a' ih =>
    intro b ha hb
    have hx : p x = true := ha x (by simp)
    have := ih b (fun c hc => ha c (by simp [hc])) hb
    simp [List.takeWhile, List.dropWhile, hx, this]

/-! # Lemmas: exact decimal rendering round-trips through the parser -/

theorem qrenderable_neg {q : ℚ} (h : QRenderable q) : QRenderable (-q) := by
  obtain ⟨z, hz⟩ := h
  exact ⟨-z, by push_cast [← hz]; ring⟩

theorem den_one_mul_ten {q : ℚ} {a b : Nat} (hab : a ≤ b) (h : (q * 10 ^ a).den = 1) :
    (q * 10 ^ b).den = 1 := by
  have hadd : a + (b - a) = b := by omega
  have hsplit : q * 10 ^ b = (q * 10 ^ a) * 10 ^ (b - a) := by
    rw [mul_assoc, ← pow_add, hadd]
  have hz : ((q * 10 ^ a).num : ℚ) = q * 10 ^ a := (Rat.den_eq_one_iff _).mp h
  rw [hsplit, ← hz]
  have hcast : ((q * 10 ^ a).num : ℚ) * 10 ^ (b - a) =
      (((q * 10 ^ a).num * 10 ^ (b - a) : ℤ) : ℚ) := by push_cast; ring
  rw [hcast]
  exact Rat.den_intCast _

theorem decExp_den {q : ℚ} (hr : QRenderable q) : (q * 10 ^ decExp q).den = 1 := by
  unfold decExp
  cases hfind : (List.range (RCAP + 1)).find? (fun k => (q * 10 ^ k).den == 1) with
  | none =>
    obtain ⟨z, hz⟩ := hr
    simp only [Option.getD_none]
    rw [hz]
    exact Rat.den_intCast z
  | some k0 =>
    have := List.find?_some hfind
    simpa using this

theorem renderPos_spec (q : ℚ) (h0 : 0 ≤ q) (hr : QRenderable q) :
    ∃ ip fp : List Char,
      renderPosNum q = ip ++ '.' :: fp ∧ ip ≠ [] ∧ fp ≠ [] ∧
      (∀ c ∈ ip, c.isDigit = true) ∧ (∀ c ∈ fp, c.isDigit = true) ∧
      (digitsVal 0 ip : ℚ) + (digitsVal 0 fp : ℚ) / 10 ^ fp.length = q := by
  have hden0 := decExp_den hr
  set k := max (decExp q) 1 with hk
  have hk1 : 1 ≤ k := le_max_right _ _
  have hdenk : (q * 10 ^ k).den = 1 := den_one_mul_ten (le_max_left _ _) hden0
  set N := (q * 10 ^ k).num.toNat with hNdef
  have hnum : ((q * 10 ^ k).num : ℚ) = q * 10 ^ k := (Rat.den_eq_one_iff _).mp hdenk
  have hnn : 0 ≤ (q * 10 ^ k).num := Rat.num_nonneg.mpr (by positivity)
  have htoNat : ((q * 10 ^ k).num.toNat : ℤ) = (q * 10 ^ k).num := Int.toNat_of_nonneg hnn
  have hN : (N : ℚ) = q * 10 ^ k := by
    rw [← hnum, hNdef]
    exact_mod_cast congrArg (fun z : ℤ => (z : ℚ)) htoNat
  set ds0 := natDigits N with hds0
  set ds := List.replicate (k + 1 - ds0.length) '0' ++ ds0 with hds
  have hds0ne : ds0 ≠ [] := natDigits_ne_nil N
  have hds0len : 1 ≤ ds0.length := by
    cases h : ds0 with
    | nil => exact absurd h hds0ne
    | cons a b => simp
  have hlen : ds.length = k + 1 - ds0.length + ds0.length := by simp [hds]
  have hklen : k < ds.length := by omega
  have hdigits : ∀ c ∈ ds, c.isDigit = true := by
    intro c hc
    rw [hds] at hc
    rcases List.mem_append.mp hc with hc | hc
    · rw [List.eq_of_mem_replicate hc]; decide
    · exact natDigits_digits N c hc
  have hdsval : digitsVal 0 ds = N := by
    rw [hds, digitsVal_append, digitsVal_zeros, digitsVal_natDigits]
  set ip := ds.take (ds.length - k) with hip
  set fp := ds.drop (ds.length - k) with hfp
  have hiplen : ip.length = ds.length - k := by
    rw [hip, List.length_take]
    omega
  have hfplen : fp.length = k := by
    rw [hfp, List.length_drop]
    omega
  have hsplit : ip ++ fp = ds := List.take_append_drop _ _
  have hval : digitsVal 0 ip * 10 ^ k + digitsVal 0 fp = N := by
    have h1 : digitsVal 0 (ip ++ fp) = N := by rw [hsplit]; exact hdsval
    rw [digitsVal_append, digitsVal_acc, hfplen] at h1
    exact h1
  refine ⟨ip, fp, ?_, ?_, ?_, ?_, ?_, ?_⟩
  · rw [renderPosNum]
  · refine List.ne_nil_of_length_pos ?_
    omega
  · refine List.ne_nil_of_length_pos ?_
    omega
  · intro c hc; exact hdigits c (List.mem_of_mem_take hc)
  · intro c hc; exact hdigits c (List.mem_of_mem_drop hc)
  · rw [hfplen]
    have h10 : (10 : ℚ) ^ k ≠ 0 := by positivity
    field_simp
    rw [← hN]
    push_cast [← hval]
    ring

theorem digit_ne_dash {c : Char} (h : c.isDigit = true) : c ≠ '-' := by
  intro hc
  have := isDigit_toNat h
  rw [hc] at this
  simp at this

theorem parseNumTail_float (q : ℚ) (i : ℤ) (rest : List Char) (hb : NumBoundary rest) :
    parseNumTail q i true rest = some (.jnum q, rest) := by
  unfold parseNumTail
  cases rest with
  | nil => simp
  | cons c t =>
    obtain ⟨h1, h2, h3, h4⟩ := hb
    simp [h3, h4]

theorem parseNumTail_int (q : ℚ) (i : ℤ) (rest : List Char) (hb : NumBoundary rest) :
    parseNumTail q i false rest = some (.jint i, rest) := by
  unfold parseNumTail
  cases rest with
  | nil => simp
  | cons c t =>
    obtain ⟨h1, h2, h3, h4⟩ := hb
    simp [h3, h4]

theorem numBoundary_not_digit {rest : List Char} (hb : NumBoundary rest) :
    ∀ c, rest.head? = some c → Char.isDigit c = false := by
  intro c hc
  cases rest with
  | nil => simp at hc
  | cons d t =>
    simp at hc
    rw [← hc]
    exact hb.1

theorem parseNumCore_render (q : ℚ) (h0 : 0 ≤ q) (hr : QRenderable q) (neg : Bool)
    (rest : List Char) (hb : NumBoundary rest) :
    parseNumCore neg (renderPosNum q ++ rest) =
      some (.jnum (if neg then -q else q), rest) := by
  obtain ⟨ip, fp, hrender, hipne, hfpne, hipd, hfpd, hqval⟩ := renderPos_spec q h0 hr
  rw [hrender]
  have hass : (ip ++ '.' :: fp) ++ rest = ip ++ '.' :: (fp ++ rest) := by simp
  rw [hass]
  have hsplit1 := takeWhile_split (p := Char.isDigit) ip ('.' :: (fp ++ rest)) hipd
    (by intro c hc; simp at hc; rw [← hc]; decide)
  have hsplit2 := takeWhile_split (p := Char.isDigit) fp rest hfpd
    (numBoundary_not_digit hb)
  unfold parseNumCore
  simp only [hsplit1.1, hsplit1.2, if_neg hipne, List.head?_cons, List.tail_cons,
    Option.some.injEq, reduceIte, hsplit2.1, hsplit2.2, if_neg hfpne]
  rw [parseNumTail_float _ _ _ hb]
  rw [hqval]

theorem numBoundary_head_ne_dot {rest : List Char} (hb : NumBoundary rest) :
    rest.head? ≠ some '.' := by
  cases rest with
  | nil => simp
  | cons c t =>
    intro h
    simp at h
    exact hb.2.1 h

theorem parseNumber_digits_head (l : List Char) (hl : l ≠ [])
    (hd : ∀ c ∈ l, c.isDigit = true) (rest : List Char) :
    parseNumber (l ++ rest) = parseNumCore false (l ++ rest) := by
  cases l with
  | nil => exact absurd rfl hl
  | cons c t =>
    have hcd := hd c (by simp)
    rw [List.cons_append]
    simp only [parseNumber]
    rw [if_neg (digit_ne_dash hcd)]

theorem parseNumber_render (q : ℚ) (hr : QRenderable q) (rest : List Char)
    (hb : NumBoundary rest) :
    parseNumber (renderNumL q ++ rest) = some (.jnum q, rest) := by
  rcases le_or_lt 0 q with h0 | h0
  · rw [renderNumL, if_neg (not_lt.mpr h0)]
    obtain ⟨ip, fp, hrender, hipne, hfpne, hipd, hfpd, hqval⟩ := renderPos_spec q h0 hr
    have hhead : ∀ c ∈ renderPosNum q, c.isDigit = true ∨ c = '.' := by
      intro c hc
      rw [hrender] at hc
      rcases List.mem_append.mp hc with hc | hc
      · exact Or.inl (hipd c hc)
      · rcases List.mem_cons.mp hc with hc | hc
        · exact Or.inr hc
        · exact Or.inl (hfpd c hc)
    have hne : renderPosNum q ≠ [] := by
      rw [hrender]
      simp
    have hfirst : ∀ c ∈ ip, c.isDigit = true := hipd
    rw [show renderPosNum q ++ rest = ip ++ ('.' :: fp ++ rest) by rw [hrender]; simp]
    rw [parseNumber_digits_head ip hipne hipd ('.' :: fp ++ rest)]
    rw [show ip ++ ('.' :: fp ++ rest) = renderPosNum q ++ rest by rw [hrender]; simp]
    have := parseNumCore_render q h0 hr false rest hb
    simpa using this
  · rw [renderNumL, if_pos h0]
    have h0' : 0 ≤ -q := by linarith
    rw [List.cons_append]
    simp only [parseNumber, if_true]
    have := parseNumCore_render (-q) h0' (qrenderable_neg hr) true rest hb
    rw [this]
    simp

theorem parseNumCore_natDigits (neg : Bool) (n : Nat) (rest : List Char)
    (hb : NumBoundary rest) :
    parseNumCore neg (natDigits n ++ rest) =
      some (.jint (if neg then -(n : ℤ) else (n : ℤ)), rest) := by
  have hdig := natDigits_digits n
  have hsplit := takeWhile_split (p := Char.isDigit) (natDigits n) rest hdig
    (numBoundary_not_digit hb)
  unfold parseNumCore
  simp only [hsplit.1, hsplit.2, if_neg (natDigits_ne_nil n)]
  rw [if_neg (numBoundary_head_ne_dot hb)]
  rw [digitsVal_natDigits]
  rw [parseNumTail_int _ _ _ hb]

theorem parseNumber_intDigits (i : ℤ) (rest : List Char) (hb : NumBoundary rest) :
    parseNumber (intDigits i ++ rest) = some (.jint i, rest) := by
  by_cases hi : i < 0
  · rw [intDigits, if_pos hi, List.cons_append]
    simp only [parseNumber, if_true]
    rw [parseNumCore_natDigits true i.natAbs rest hb]
    have habs : -(i.natAbs : ℤ) = i := by omega
    simp only [habs, if_true]
  · rw [intDigits, if_neg hi]
    rw [parseNumber_digits_head _ (natDigits_ne_nil _) (natDigits_digits _) rest]
    rw [parseNumCore_natDigits false i.natAbs rest hb]
    have habs : (i.natAbs : ℤ) = i := by omega
    simp [habs]

/-! # Lemmas: JSON string escaping round-trips through the parser -/

theorem hexChar_mod (m : Nat) : hexChar m = hexChar (m % 16) := by
  have h16 : m % 16 % 16 = m % 16 := by omega
  unfold hexChar
  rw [h16]

theorem hexVal_hexChar_lt : ∀ m < 16, hexVal (hexChar m) = some m := by decide

theorem hexVal_hexChar (m : Nat) : hexVal (hexChar m) = some (m % 16) := by
  rw [hexChar_mod]
  exact hexVal_hexChar_lt (m % 16) (Nat.mod_lt _ (by norm_num))

theorem natToHex4_eq (n : Nat) :
    natToHex 4 n = [hexChar (n / 4096), hexChar (n / 256), hexChar (n / 16), hexChar n] := by
  simp [natToHex, Nat.div_div_eq_div_mul]

theorem hex4_natToHex (n : Nat) (h : n < 65536) (tail : List Char) :
    ∃ l, natToHex 4 n ++ tail = l ∧
      l = hexChar (n / 4096) :: hexChar (n / 256) :: hexChar (n / 16) :: hexChar n :: tail ∧
      hex4 (hexChar (n / 4096)) (hexChar (n / 256)) (hexChar (n / 16)) (hexChar n) = some n := by
  refine ⟨_, rfl, by rw [natToHex4_eq]; simp, ?_⟩
  simp [hex4, hexVal_hexChar, Option.bind]
  omega

theorem parseUEscape_bmp (n : Nat) (h16 : n < 65536) (hs : n < 55296 ∨ 57344 ≤ n)
    (tail : List Char) :
    parseUEscape (natToHex 4 n ++ tail) = some (Char.ofNat n, tail) := by
  obtain ⟨l, hl, hshape, hhex⟩ := hex4_natToHex n h16 tail
  rw [hl, hshape]
  simp only [parseUEscape, hhex]
  have c1 : ¬(55296 ≤ n ∧ n < 56320) := by omega
  have c2 : ¬(56320 ≤ n ∧ n < 57344) := by omega
  rw [if_neg c1, if_neg c2]

theorem parseUEscape_pair (hi lo n : Nat) (hhi1 : 55296 ≤ hi) (hhi2 : hi < 56320)
    (hlo1 : 56320 ≤ lo) (hlo2 : lo < 57344)
    (hn : 65536 + (hi - 55296) * 1024 + (lo - 56320) = n) (tail : List Char) :
    parseUEscape (natToHex 4 hi ++ '\\' :: 'u' :: (natToHex 4 lo ++ tail)) =
    some (Char.ofNat n, tail) := by
  obtain ⟨l1, hl1, hshape1, hhex1⟩ := hex4_natToHex hi (by omega)
    ('\\' :: 'u' :: (natToHex 4 lo ++ tail))
  obtain ⟨l2, hl2, hshape2, hhex2⟩ := hex4_natToHex lo (by omega) tail
  rw [hl1, hshape1]
  simp only [parseUEscape, hhex1]
  have c1 : 55296 ≤ hi ∧ hi < 56320 := by omega
  rw [if_pos c1]
  have hlowinput : '\\' :: 'u' :: (natToHex 4 lo ++ tail) =
      '\\' :: 'u' :: hexChar (lo / 4096) :: hexChar (lo / 256) :: hexChar (lo / 16) ::
        hexChar lo :: tail := by
    rw [natToHex4_eq]
    simp
  rw [hlowinput]
  simp only [parseLowSurrogate, hhex2]
  have c2 : 56320 ≤ lo ∧ lo < 57344 := by omega
  rw [if_pos c2]
  show some (Char.ofNat (65536 + (hi - 55296) * 1024 + (lo - 56320)), tail) =
    some (Char.ofNat n, tail)
  rw [hn]

theorem escapeChar_length_pos (c : Char) : 1 ≤ (escapeChar c).length := by
  unfold escapeChar
  split_ifs <;> simp [natToHex4_eq]

theorem escapeL_length_ge (s : List Char) : s.length ≤ (escapeL s).length := by
  induction s with
  | nil => simp [escapeL]
  | cons c s' ih =>
    have := escapeChar_length_pos c
    simp [escapeL] at ih ⊢
    omega

theorem parseJStrGo_uescape (f : Nat) (cs rest3 : List Char) (d : Char)
    (h : parseUEscape cs = some (d, rest3)) :
    parseJStrGo (f + 1) ('\\' :: 'u' :: cs) =
      (parseJStrGo f rest3).map (fun p => (d :: p.1, p.2)) := by
  simp only [parseJStrGo, if_true]
  rw [h]
  have hq : ('\\' : Char) ≠ '"' := by decide
  rw [if_neg hq]

theorem parseJStrGo_escape : ∀ (s : List Char) (fuel : Nat), s.length < fuel →
    ∀ rest, parseJStrGo fuel (escapeL s ++ '"' :: rest) = some (s, rest) := by
  intro s
  induction s with
  | nil =>
    intro fuel hfuel rest
    rcases fuel with _ | f
    · omega
    · simp [escapeL, parseJStrGo]
  | cons c s' ih =>
    intro fuel hfuel rest
    rcases fuel with _ | f
    · omega
    · have hf : s'.length < f := by simp at hfuel; omega
      have hIH := ih f hf rest
      have hstep : escapeL (c :: s') = escapeChar c ++ escapeL s' := by
        simp [escapeL]
      rw [hstep, List.append_assoc]
      set tail := escapeL s' ++ '"' :: rest with htail
      by_cases h1 : c = '"'
      · subst h1
        simp [escapeChar, parseJStrGo, escCharVal, hIH]
      · by_cases h2 : c = '\\'
        · subst h2
          simp [escapeChar, parseJStrGo, escCharVal, hIH]
        · by_cases h3 : c.toNat = 8
          · have hc : c = Char.ofNat 8 := char_eq_of_toNat (by rw [h3]; decide)
            subst hc
            simp [escapeChar, parseJStrGo, escCharVal, hIH]
          · by_cases h4 : c.toNat = 9
            · have hc : c = Char.ofNat 9 := char_eq_of_toNat (by rw [h4]; decide)
              subst hc
              simp [escapeChar, parseJStrGo, escCharVal, hIH]
            · by_cases h5 : c.toNat = 10
              · have hc : c = Char.ofNat 10 := char_eq_of_toNat (by rw [h5]; decide)
                subst hc
                simp [escapeChar, parseJStrGo, escCharVal, hIH]
              · by_cases h6 : c.toNat = 12
                · have hc : c = Char.ofNat 12 := char_eq_of_toNat (by rw [h6]; decide)
                  subst hc
                  simp [escapeChar, parseJStrGo, escCharVal, hIH]
                · by_cases h7 : c.toNat = 13
                  · have hc : c = Char.ofNat 13 := char_eq_of_toNat (by rw [h7]; decide)
                    subst hc
                    simp [escapeChar, parseJStrGo, escCharVal, hIH]
                  · by_cases h8 : 32 ≤ c.toNat ∧ c.toNat ≤ 126
                    · have hesc : escapeChar c = [c] := by
                        unfold escapeChar
                        rw [if_neg h1, if_neg h2, if_neg h3, if_neg h4, if_neg h5,
                          if_neg h6, if_neg h7, if_pos h8]
                      rw [hesc]
                      simp only [List.singleton_append]
                      simp only [parseJStrGo]
                      rw [if_neg h1, if_neg h2, hIH]
                      rfl
                    · by_cases h9 : c.toNat < 65536
                      · have hesc : escapeChar c = '\\' :: 'u' :: natToHex 4 c.toNat := by
                          unfold escapeChar
                          rw [if_neg h1, if_neg h2, if_neg h3, if_neg h4, if_neg h5,
                            if_neg h6, if_neg h7, if_neg h8, if_pos h9]
                        rw [hesc]
                        simp only [List.cons_append]
                        rw [parseJStrGo_uescape f _ _ _
                          (parseUEscape_bmp c.toNat h9 (char_not_surrogate c) tail)]
                        rw [hIH, Char.ofNat_toNat]
                        rfl
                      · have hesc : escapeChar c =
                            ('\\' :: 'u' :: natToHex 4 (55296 + (c.toNat - 65536) / 1024)) ++
                            ('\\' :: 'u' :: natToHex 4 (56320 + (c.toNat - 65536) % 1024)) := by
                          unfold escapeChar
                          rw [if_neg h1, if_neg h2, if_neg h3, if_neg h4, if_neg h5,
                            if_neg h6, if_neg h7, if_neg h8, if_neg h9]
                        rw [hesc]
                        simp only [List.cons_append, List.append_assoc]
                        have hlt := char_toNat_lt c
                        have hge : 65536 ≤ c.toNat := by omega
                        have hpair := parseUEscape_pair
                          (55296 + (c.toNat - 65536) / 1024)
                          (56320 + (c.toNat - 65536) % 1024) c.toNat
                          (by omega) (by omega) (by omega) (by omega) (by omega) tail
                        rw [parseJStrGo_uescape f _ _ _ hpair]
                        rw [hIH, Char.ofNat_toNat]
                        rfl

theorem parseJStrL_escape (s : List Char) (rest : List Char) :
    parseJStrL (escapeL s ++ '"' :: rest) = some (s, rest) := by
  unfold parseJStrL
  refine parseJStrGo_escape s _ ?_ rest
  have := escapeL_length_ge s
  simp
  omega

/-! # Lemmas: the full JSON document round-trip -/

theorem string_mk_toList (s : String) : String.mk s.toList = s := by
  cases s
  rfl

theorem skipWs_not_ws {c : Char} (h : isWsChar c = false) (l : List Char) :
    skipWs (c :: l) = c :: l := by
  simp [skipWs, h]

theorem parseValue_ws (f : Nat) (X : List Char) :
    parseValue f (' ' :: X) = parseValue f X := by
  cases f with
  | zero => simp [parseValue]
  | succ f =>
    simp only [parseValue]
    rw [show skipWs (' ' :: X) = skipWs X by simp [skipWs, isWsChar]]

theorem intDigits_head (i : ℤ) :
    ∃ c t, intDigits i = c :: t ∧ (c = '-' ∨ c.isDigit = true) := by
  unfold intDigits
  split
  · exact ⟨'-', _, rfl, Or.inl rfl⟩
  · cases h : natDigits i.natAbs with
    | nil => exact absurd h (natDigits_ne_nil _)
    | cons c t =>
      refine ⟨c, t, rfl, Or.inr ?_⟩
      exact natDigits_digits _ c (by rw [h]; simp)

theorem renderNum_head (q : ℚ) (hr : QRenderable q) :
    ∃ c t, renderNumL q = c :: t ∧ (c = '-' ∨ c.isDigit = true) := by
  unfold renderNumL
  split
  · exact ⟨'-', _, rfl, Or.inl rfl⟩
  · next h =>
    obtain ⟨ip, fp, hrender, hipne, _, hipd, _, _⟩ :=
      renderPos_spec q (by linarith [not_lt.mp h]) hr
    cases hip : ip with
    | nil => exact absurd hip hipne
    | cons c t =>
      refine ⟨c, t ++ '.' :: fp, ?_, Or.inr (hipd c (by rw [hip]; simp))⟩
      rw [hrender, hip]
      simp

theorem numStart_facts {c : Char} (h : c = '-' ∨ c.isDigit = true) :
    isWsChar c = false ∧ c ≠ 'n' ∧ c ≠ 't' ∧ c ≠ 'f' ∧ c ≠ '"' ∧ c ≠ '{' := by
  rcases h with rfl | h
  · refine ⟨by decide, by decide, by decide, by decide, by decide, by decide⟩
  · have hb := isDigit_toNat h
    have hne : c ≠ ' ' ∧ c ≠ '\t' ∧ c ≠ '\n' ∧ c ≠ '\r' := by
      refine ⟨?_, ?_, ?_, ?_⟩ <;> (intro he; rw [he] at hb; simp at hb)
    refine ⟨?_, ?_, ?_, ?_, ?_, ?_⟩
    · simp [isWsChar, hne.1, hne.2.1, hne.2.2.1, hne.2.2.2]
    all_goals (intro he; rw [he] at hb; simp at hb)

theorem jdumpsMembers_cons_head (k : String) (v : JValue) (ms : JMembers) :
    ∃ t, jdumpsMembers (.cons k v ms) = '"' :: t := by
  cases ms <;> simp [jdumpsMembers]

theorem jsize_pos (v : JValue) : 1 ≤ jsize v := by
  cases v <;> simp [jsize]

theorem renderPosNum_len (q : ℚ) : 1 ≤ (renderPosNum q).length := by
  unfold renderPosNum
  simp
  omega

theorem renderNumL_has_dot (q : ℚ) : 1 ≤ (renderNumL q).length := by
  unfold renderNumL
  split
  · simp
  · exact renderPosNum_len q

mutual
theorem jsize_le_dump (v : JValue) : jsize v ≤ (jdumpsL v).length := by
  cases v with
  | jnull => simp [jsize, jdumpsL]
  | jbool b => cases b <;> simp [jsize, jdumpsL]
  | jint i =>
    have h1 : 1 ≤ (intDigits i).length := by
      obtain ⟨c, t, hct, _⟩ := intDigits_head i
      rw [hct]
      simp
    simpa [jsize, jdumpsL] using h1
  | jnum q =>
    have h1 := renderNumL_has_dot q
    simpa [jsize, jdumpsL] using h1
  | jstr s => simp [jsize, jdumpsL]
  | jobj ms =>
    have h1 := jsizeM_le_dump ms
    simp [jsize, jdumpsL]
    omega
theorem jsizeM_le_dump (ms : JMembers) : jsizeM ms ≤ (jdumpsMembers ms).length + 1 := by
  cases ms with
  | nil => simp [jsizeM, jdumpsMembers]
  | cons k v rest =>
    cases rest with
    | nil =>
      have h1 := jsize_le_dump v
      simp [jsizeM, jdumpsMembers]
      omega
    | cons k2 v2 rest2 =>
      have h1 := jsize_le_dump v
      have h2 := jsizeM_le_dump (.cons k2 v2 rest2)
      simp [jsizeM, jdumpsMembers] at h2 ⊢
      omega
end

theorem parseValue_succ (f : Nat) {c : Char} (hws : isWsChar c = false) (X : List Char) :
    parseValue (f + 1) (c :: X) = parseValueCore f c X := by
  simp only [parseValue]
  rw [skipWs_not_ws hws]

theorem parseValueCore_null (f : Nat) (r : List Char) :
    parseValueCore f 'n' ('u' :: 'l' :: 'l' :: r) = some (.jnull, r) := by
  simp [parseValueCore]

theorem parseValueCore_true (f : Nat) (r : List Char) :
    parseValueCore f 't' ('r' :: 'u' :: 'e' :: r) = some (.jbool true, r) := by
  simp [parseValueCore]

theorem parseValueCore_false (f : Nat) (r : List Char) :
    parseValueCore f 'f' ('a' :: 'l' :: 's' :: 'e' :: r) = some (.jbool false, r) := by
  simp [parseValueCore]

theorem parseValueCore_quote (f : Nat) (X : List Char) :
    parseValueCore f '"' X = (parseJStrL X).map (fun p => (JValue.jstr (String.mk p.1), p.2)) := by
  unfold parseValueCore
  rfl

theorem parseValueCore_lbrace (f : Nat) (X : List Char) :
    parseValueCore f '{' X =
      (if (skipWs X).head? = some '}' then some (.jobj .nil, (skipWs X).tail)
       else (parseMembers f (skipWs X)).map (fun p => (.jobj p.1, p.2))) := by
  unfold parseValueCore
  rfl

theorem parseValueCore_num (f : Nat) {c : Char} (h : c = '-' ∨ c.isDigit = true)
    (X : List Char) : parseValueCore f c X = parseNumber (c :: X) := by
  obtain ⟨hws, hn, ht, hf, hq, hb⟩ := numStart_facts h
  unfold parseValueCore
  rw [if_neg hn, if_neg ht, if_neg hf, if_neg hq, if_neg hb, if_pos h]

theorem parse_dumps_both : ∀ fuel : Nat,
    (∀ (v : JValue) (rest : List Char), JWF v → jsize v ≤ fuel → NumBoundary rest →
        parseValue fuel (jdumpsL v ++ rest) = some (v, rest)) ∧
    (∀ (ms : JMembers) (rest : List Char), JWFm ms → ms ≠ .nil → jsizeM ms ≤ fuel →
        parseMembers fuel (jdumpsMembers ms ++ '}' :: rest) = some (ms, rest)) := by
  intro fuel
  induction fuel using Nat.strong_induction_on with
  | _ fuel ih =>
    constructor
    · intro v rest hwf hsz hrest
      have hpos := jsize_pos v
      rcases fuel with _ | f
      · omega
      cases v with
      | jnull =>
        have hin : jdumpsL JValue.jnull ++ rest = 'n' :: 'u' :: 'l' :: 'l' :: rest := by
          simp [jdumpsL]
        rw [hin, parseValue_succ f (by decide), parseValueCore_null]
      | jbool b =>
        cases b
        · have hin : jdumpsL (JValue.jbool false) ++ rest =
              'f' :: 'a' :: 'l' :: 's' :: 'e' :: rest := by simp [jdumpsL]
          rw [hin, parseValue_succ f (by decide), parseValueCore_false]
        · have hin : jdumpsL (JValue.jbool true) ++ rest =
              't' :: 'r' :: 'u' :: 'e' :: rest := by simp [jdumpsL]
          rw [hin, parseValue_succ f (by decide), parseValueCore_true]
      | jint i =>
        obtain ⟨c, t, hct, hstart⟩ := intDigits_head i
        have hin : jdumpsL (JValue.jint i) ++ rest = c :: (t ++ rest) := by
          simp [jdumpsL, hct]
        rw [hin, parseValue_succ f (numStart_facts hstart).1, parseValueCore_num f hstart]
        rw [show c :: (t ++ rest) = intDigits i ++ rest by rw [hct]; simp]
        exact parseNumber_intDigits i rest hrest
      | jnum q =>
        have hq : QRenderable q := by simpa [JWF] using hwf
        obtain ⟨c, t, hct, hstart⟩ := renderNum_head q hq
        have hin : jdumpsL (JValue.jnum q) ++ rest = c :: (t ++ rest) := by
          simp [jdumpsL, hct]
        rw [hin, parseValue_succ f (numStart_facts hstart).1, parseValueCore_num f hstart]
        rw [show c :: (t ++ rest) = renderNumL q ++ rest by rw [hct]; simp]
        exact parseNumber_render q hq rest hrest
      | jstr s =>
        have hin : jdumpsL (JValue.jstr s) ++ rest =
            '"' :: (escapeL s.toList ++ '"' :: rest) := by simp [jdumpsL]
        rw [hin, parseValue_succ f (by decide), parseValueCore_quote,
          parseJStrL_escape]
        simp [string_mk_toList]
      | jobj ms =>
        have hwfm : JWFm ms := by simpa [JWF] using hwf
        cases ms with
        | nil =>
          have hin : jdumpsL (JValue.jobj .nil) ++ rest = '{' :: ('}' :: rest) := by
            simp [jdumpsL, jdumpsMembers]
          rw [hin, parseValue_succ f (by decide), parseValueCore_lbrace]
          rw [skipWs_not_ws (by decide)]
          simp
        | cons k v ms' =>
          have hin : jdumpsL (JValue.jobj (.cons k v ms')) ++ rest =
              '{' :: (jdumpsMembers (.cons k v ms') ++ '}' :: rest) := by
            simp [jdumpsL]
          rw [hin, parseValue_succ f (by decide), parseValueCore_lbrace]
          obtain ⟨t0, ht0⟩ := jdumpsMembers_cons_head k v ms'
          have hskip : skipWs (jdumpsMembers (.cons k v ms') ++ '}' :: rest) =
              jdumpsMembers (.cons k v ms') ++ '}' :: rest := by
            rw [ht0]
            exact skipWs_not_ws (by decide) _
          rw [hskip]
          have hhead : (jdumpsMembers (.cons k v ms') ++ '}' :: rest).head? ≠ some '}' := by
            rw [ht0]
            simp
          rw [if_neg hhead]
          have hszm : jsizeM (.cons k v ms') ≤ f := by
            simp [jsize, jsizeM] at hsz ⊢
            omega
          rw [(ih f (by omega)).2 (.cons k v ms') rest hwfm (by simp) hszm]
          rfl
    · intro ms rest hwf hne hsz
      cases ms with
      | nil => exact absurd rfl hne
      | cons k v ms' =>
        have hszv : 1 + jsize v + jsizeM ms' ≤ fuel := by
          simpa [jsizeM] using hsz
        have hvpos := jsize_pos v
        rcases fuel with _ | f
        · omega
        have hwfv : JWF v := hwf.1
        have hwfm' : JWFm ms' := hwf.2
        cases ms' with
        | nil =>
          have hin : jdumpsMembers (.cons k v .nil) ++ '}' :: rest =
              '"' :: (escapeL k.toList ++ '"' ::
                (':' :: ' ' :: (jdumpsL v ++ '}' :: rest))) := by
            simp [jdumpsMembers]
          rw [hin]
          simp only [parseMembers]
          rw [parseJStrL_escape]
          simp only []
          rw [show skipWs (':' :: ' ' :: (jdumpsL v ++ '}' :: rest)) =
            ':' :: ' ' :: (jdumpsL v ++ '}' :: rest) from skipWs_not_ws (by decide) _]
          simp only [List.head?_cons, List.tail_cons]
          rw [if_true]
          rw [parseValue_ws]
          rw [(ih f (by omega)).1 v ('}' :: rest) hwfv (by omega)
            ⟨by decide, by decide, by decide, by decide⟩]
          simp only []
          rw [show skipWs ('}' :: rest) = '}' :: rest from skipWs_not_ws (by decide) _]
          simp only [List.head?_cons, List.tail_cons]
          rw [if_neg (by decide), if_true]
          simp [string_mk_toList]
        | cons k2 v2 ms'' =>
          have hin : jdumpsMembers (.cons k v (.cons k2 v2 ms'')) ++ '}' :: rest =
              '"' :: (escapeL k.toList ++ '"' ::
                (':' :: ' ' :: (jdumpsL v ++
                  ',' :: ' ' :: (jdumpsMembers (.cons k2 v2 ms'') ++ '}' :: rest)))) := by
            simp [jdumpsMembers]
          rw [hin]
          simp only [parseMembers]
          rw [parseJStrL_escape]
          simp only []
          rw [show skipWs (':' :: ' ' :: (jdumpsL v ++
              ',' :: ' ' :: (jdumpsMembers (.cons k2 v2 ms'') ++ '}' :: rest))) =
            ':' :: ' ' :: (jdumpsL v ++
              ',' :: ' ' :: (jdumpsMembers (.cons k2 v2 ms'') ++ '}' :: rest))
            from skipWs_not_ws (by decide) _]
          simp only [List.head?_cons, List.tail_cons]
          rw [if_true]
          rw [parseValue_ws]
          rw [(ih f (by omega)).1 v
            (',' :: ' ' :: (jdumpsMembers (.cons k2 v2 ms'') ++ '}' :: rest))
            hwfv (by simp [jsizeM] at hsz; omega)
            ⟨by decide, by decide, by decide, by decide⟩]
          simp only []
          rw [show skipWs (',' :: ' ' :: (jdumpsMembers (.cons k2 v2 ms'') ++ '}' :: rest)) =
            ',' :: ' ' :: (jdumpsMembers (.cons k2 v2 ms'') ++ '}' :: rest)
            from skipWs_not_ws (by decide) _]
          simp only [List.head?_cons, List.tail_cons]
          rw [if_true]
          obtain ⟨t2, ht2⟩ := jdumpsMembers_cons_head k2 v2 ms''
          have hskip2 : skipWs (' ' :: (jdumpsMembers (.cons k2 v2 ms'') ++ '}' :: rest)) =
              jdumpsMembers (.cons k2 v2 ms'') ++ '}' :: rest := by
            rw [show skipWs (' ' :: (jdumpsMembers (.cons k2 v2 ms'') ++ '}' :: rest)) =
              skipWs (jdumpsMembers (.cons k2 v2 ms'') ++ '}' :: rest) from by
                simp [skipWs, isWsChar]]
            rw [ht2]
            exact skipWs_not_ws (by decide) _
          rw [hskip2]
          rw [(ih f (by omega)).2 (.cons k2 v2 ms'') rest hwfm' (by simp)
            (by simp [jsizeM] at hsz ⊢; omega)]
          simp [string_mk_toList]

theorem jloads_jdumps (v : JValue) (h : JWF v) : jloads (jdumps v) = some v := by
  have hp := (parse_dumps_both ((jdumpsL v).length + 1)).1 v [] h
    (le_trans (jsize_le_dump v) (Nat.le_succ _)) trivial
  rw [List.append_nil] at hp
  unfold jloads
  rw [show (jdumps v).toList = jdumpsL v from rfl,
    show (jdumps v).length = (jdumpsL v).length from rfl, hp]
  rfl

/-! # Lemmas: `json.dumps` output is pure ASCII (`ensure_ascii=True`) -/

theorem hexChar_ascii (n : Nat) : (hexChar n).toNat < 128 := by
  simp only [hexChar]
  have h : n % 16 < 16 := Nat.mod_lt _ (by omega)
  split
  · rw [char_toNat_ofNat _ (Or.inl (by omega))]
    omega
  · rw [char_toNat_ofNat _ (Or.inl (by omega))]
    omega

theorem natToHex_ascii (k : Nat) : ∀ n : Nat, ∀ c ∈ natToHex k n, c.toNat < 128 := by
  induction k with
  | zero => simp [natToHex]
  | succ k ih =>
    intro n c hc
    simp only [natToHex, List.mem_append, List.mem_singleton] at hc
    rcases hc with hc | rfl
    · exact ih _ c hc
    · exact hexChar_ascii n

theorem natDigits_ascii (n : Nat) : ∀ c ∈ natDigits n, c.toNat < 128 := by
  intro c hc
  have h1 := natDigits_digits n c hc
  have h2 := isDigit_toNat h1
  omega

theorem intDigits_ascii (i : ℤ) : ∀ c ∈ intDigits i, c.toNat < 128 := by
  intro c hc
  unfold intDigits at hc
  split at hc
  · rcases List.mem_cons.mp hc with rfl | hc
    · decide
    · exact natDigits_ascii _ c hc
  · exact natDigits_ascii _ c hc

theorem renderPosNum_ascii (q : ℚ) : ∀ c ∈ renderPosNum q, c.toNat < 128 := by
  intro c hc
  unfold renderPosNum at hc
  simp only [List.mem_append, List.mem_cons] at hc
  rcases hc with hc | rfl | hc
  · have hm := List.mem_of_mem_take hc
    rcases List.mem_append.mp hm with hm | hm
    · rw [List.eq_of_mem_replicate hm]
      decide
    · exact natDigits_ascii _ c hm
  · decide
  · have hm := List.mem_of_mem_drop hc
    rcases List.mem_append.mp hm with hm | hm
    · rw [List.eq_of_mem_replicate hm]
      decide
    · exact natDigits_ascii _ c hm

theorem renderNumL_ascii (q : ℚ) : ∀ c ∈ renderNumL q, c.toNat < 128 := by
  intro c hc
  unfold renderNumL at hc
  split at hc
  · rcases List.mem_cons.mp hc with rfl | hc
    · decide
    · exact renderPosNum_ascii _ c hc
  · exact renderPosNum_ascii _ c hc

theorem escapeChar_ascii (c : Char) : ∀ d ∈ escapeChar c, d.toNat < 128 := by
  intro d hd
  unfold escapeChar at hd
  split at hd
  · simp only [List.mem_cons, List.not_mem_nil, or_false] at hd
    rcases hd with rfl | rfl <;> decide
  split at hd
  · simp only [List.mem_cons, List.not_mem_nil, or_false] at hd
    rcases hd with rfl | rfl <;> decide
  split at hd
  · simp only [List.mem_cons, List.not_mem_nil, or_false] at hd
    rcases hd with rfl | rfl <;> decide
  split at hd
  · simp only [List.mem_cons, List.not_mem_nil, or_false] at hd
    rcases hd with rfl | rfl <;> decide
  split at hd
  · simp only [List.mem_cons, List.not_mem_nil, or_false] at hd
    rcases hd with rfl | rfl <;> decide
  split at hd
  · simp only [List.mem_cons, List.not_mem_nil, or_false] at hd
    rcases hd with rfl | rfl <;> decide
  split at hd
  · simp only [List.mem_cons, List.not_mem_nil, or_false] at hd
    rcases hd with rfl | rfl <;> decide
  split at hd
  · rename_i hprint
    simp only [List.mem_cons, List.not_mem_nil, or_false] at hd
    subst hd
    omega
  split at hd
  · rcases List.mem_cons.mp hd with rfl | hd
    · decide
    rcases List.mem_cons.mp hd with rfl | hd
    · decide
    exact natToHex_ascii 4 _ d hd
  · rcases List.mem_append.mp hd with hd | hd <;>
    · rcases List.mem_cons.mp hd with rfl | hd
      · decide
      rcases List.mem_cons.mp hd with rfl | hd
      · decide
      exact natToHex_ascii 4 _ d hd

theorem escapeL_ascii (s : List Char) : ∀ d ∈ escapeL s, d.toNat < 128 := by
  intro d hd
  unfold escapeL at hd
  rcases List.mem_flatMap.mp hd with ⟨c, _, hc⟩
  exact escapeChar_ascii c d hc

mutual
theorem jdumpsL_ascii (v : JValue) : ∀ c ∈ jdumpsL v, c.toNat < 128 := by
  cases v with
  | jnull =>
    intro c hc
    simp only [jdumpsL, List.mem_cons, List.not_mem_nil, or_false] at hc
    rcases hc with rfl | rfl | rfl | rfl <;> decide
  | jbool b =>
    cases b with
    | false =>
      intro c hc
      simp only [jdumpsL, List.mem_cons, List.not_mem_nil, or_false] at hc
      rcases hc with rfl | rfl | rfl | rfl | rfl <;> decide
    | true =>
      intro c hc
      simp only [jdumpsL, List.mem_cons, List.not_mem_nil, or_false] at hc
      rcases hc with rfl | rfl | rfl | rfl <;> decide
  | jint i =>
    intro c hc
    simp only [jdumpsL] at hc
    exact intDigits_ascii i c hc
  | jnum q =>
    intro c hc
    simp only [jdumpsL] at hc
    exact renderNumL_ascii q c hc
  | jstr s =>
    intro c hc
    simp only [jdumpsL] at hc
    rcases List.mem_cons.mp hc with rfl | hc
    · decide
    rcases List.mem_append.mp hc with hc | hc
    · exact escapeL_ascii _ c hc
    · rw [List.mem_singleton.mp hc]
      decide
  | jobj ms =>
    intro c hc
    simp only [jdumpsL] at hc
    rcases List.mem_cons.mp hc with rfl | hc
    · decide
    rcases List.mem_append.mp hc with hc | hc
    · exact jdumpsMembers_ascii ms c hc
    · rw [List.mem_singleton.mp hc]
      decide
theorem jdumpsMembers_ascii (ms : JMembers) : ∀ c ∈ jdumpsMembers ms, c.toNat < 128 := by
  cases ms with
  | nil =>
    intro c hc
    exact absurd hc (by simp [jdumpsMembers])
  | cons k v rest =>
    cases rest with
    | nil =>
      intro c hc
      simp only [jdumpsMembers] at hc
      rcases List.mem_cons.mp hc with rfl | hc
      · decide
      rcases List.mem_append.mp hc with hc | hc
      · exact escapeL_ascii _ c hc
      rcases List.mem_cons.mp hc with rfl | hc
      · decide
      rcases List.mem_cons.mp hc with rfl | hc
      · decide
      rcases List.mem_cons.mp hc with rfl | hc
      · decide
      exact jdumpsL_ascii v c hc
    | cons k2 v2 rest2 =>
      intro c hc
      simp only [jdumpsMembers] at hc
      rcases List.mem_append.mp hc with hc | hc
      · rcases List.mem_cons.mp hc with rfl | hc
        · decide
        rcases List.mem_append.mp hc with hc | hc
        · exact escapeL_ascii _ c hc
        rcases List.mem_cons.mp hc with rfl | hc
        · decide
        rcases List.mem_cons.mp hc with rfl | hc
        · decide
        rcases List.mem_cons.mp hc with rfl | hc
        · decide
        exact jdumpsL_ascii v c hc
      · rcases List.mem_cons.mp hc with rfl | hc
        · decide
        rcases List.mem_cons.mp hc with rfl | hc
        · decide
        exact jdumpsMembers_ascii (.cons k2 v2 rest2) c hc
end

/-! # Lemmas: the packet transport chain -/

theorem toBase64_decode (p : IntentionPacket) :
    b64DecodeL p.toBase64.toList = some (utf8EncodeL p.toJson.toList) := by
  rw [show p.toBase64.toList = b64EncodeL (utf8EncodeL p.toJson.toList) from rfl]
  exact b64_rt _ (utf8EncodeL_lt256 _)

theorem toJson_decode (p : IntentionPacket) :
    utf8DecodeL (utf8EncodeL p.toJson.toList) = some p.toJson.toList :=
  utf8_rt_ascii _ (jdumpsL_ascii p.toDict)

theorem toJson_loads (p : IntentionPacket) (h : JWF p.toDict) :
    jloads (String.mk p.toJson.toList) = some p.toDict := by
  rw [string_mk_toList]
  exact jloads_jdumps _ h

theorem qrenderable_of_double (f : ℚ) (h : DoubleRenderable f) : QRenderable f := by
  obtain ⟨z, hz⟩ := h
  refine ⟨z * 10 ^ 36, ?_⟩
  have h1 : (10 : ℚ) ^ RCAP = 10 ^ 1074 * 10 ^ 36 := by
    rw [← pow_add]
    norm_num [RCAP]
  rw [h1, ← mul_assoc, hz]
  push_cast
  ring

theorem qrenderable_strength (len : Nat) (f : ℚ) (h : DoubleRenderable f) :
    QRenderable (min ((len : ℚ) * f / 100) 100) := by
  obtain ⟨z, hz⟩ := h
  rcases le_total ((len : ℚ) * f / 100) 100 with hle | hle
  · rw [min_eq_left hle]
    refine ⟨(len : ℤ) * z * 10 ^ 34, ?_⟩
    have h1 : (10 : ℚ) ^ RCAP = 10 ^ 1074 * (10 ^ 34 * 100) := by
      rw [show (10 : ℚ) ^ 34 * 100 = 10 ^ 36 from by norm_num, ← pow_add]
      norm_num [RCAP]
    calc ((len : ℚ) * f / 100) * 10 ^ RCAP
        = (len : ℚ) * (f * 10 ^ 1074) * 10 ^ 34 := by rw [h1]; ring
      _ = (((len : ℤ) * z * 10 ^ 34 : ℤ) : ℚ) := by rw [hz]; push_cast; ring
  · rw [min_eq_right hle]
    refine ⟨10 ^ 1112, ?_⟩
    push_cast
    rw [show ((10 : ℚ) ^ 1112 = 10 ^ 2 * 10 ^ 1110) from by rw [← pow_add]]
    norm_num [RCAP]

theorem JWF_build (I : String) (f : ℚ) (ft td : String) (es qk : List Nat)
    (seq ts : Nat) (h : DoubleRenderable f) :
    JWF (IntentionPacket.build I f ft td es qk seq ts).toDict := by
  have h1 := qrenderable_of_double f h
  have h2 := qrenderable_strength I.length f h
  simp [IntentionPacket.build, IntentionPacket.toDict, PacketHeader.toDict, JWF, JWFm]
  exact ⟨h1, h2⟩

theorem getMember_payload (p : IntentionPacket) :
    p.toDict.getMember "payload" = some p.payload := by
  simp [IntentionPacket.toDict, JValue.getMember, JMembers.lookupLast]

theorem build_payload_intention (I : String) (f : ℚ) (ft td : String) (es qk : List Nat)
    (seq ts : Nat) :
    (IntentionPacket.build I f ft td es qk seq ts).payload.getMember "intention" =
      some (.jstr I) := by
  simp [IntentionPacket.build, JValue.getMember, JMembers.lookupLast]

/-! # Lemmas: the float arithmetic of `divine_proportion_amplify` -/

theorem floor_div_100 (x : ℚ) : ⌊x / 100⌋ = ⌊x⌋ / 100 := by
  have hfl : (⌊x⌋ : ℚ) ≤ x := Int.floor_le x
  have hfu : x < ⌊x⌋ + 1 := Int.lt_floor_add_one x
  rw [Int.floor_eq_iff]
  constructor
  · rw [le_div_iff (by norm_num : (0 : ℚ) < 100)]
    have h1 : ((⌊x⌋ / 100 : ℤ) : ℚ) * 100 ≤ (⌊x⌋ : ℚ) := by
      exact_mod_cast (by omega : (⌊x⌋ / 100) * 100 ≤ ⌊x⌋)
    linarith
  · rw [div_lt_iff (by norm_num : (0 : ℚ) < 100)]
    have h1 : ((⌊x⌋ : ℚ) + 1) ≤ ((⌊x⌋ / 100 : ℤ) : ℚ) * 100 + 100 := by
      exact_mod_cast (by omega : ⌊x⌋ + 1 ≤ (⌊x⌋ / 100) * 100 + 100)
    have h2 : (((⌊x⌋ / 100 : ℤ) : ℚ) + 1) * 100 = ((⌊x⌋ / 100 : ℤ) : ℚ) * 100 + 100 := by
      ring
    rw [h2]
    linarith

theorem floor_pyFmod_100 (x : ℚ) : ⌊pyFmod x 100⌋ = ⌊x⌋ % 100 := by
  unfold pyFmod
  have h1 : x - 100 * (⌊x / 100⌋ : ℚ) = x - ((100 * ⌊x / 100⌋ : ℤ) : ℚ) := by
    push_cast
    ring
  rw [h1, Int.floor_sub_int]
  rw [floor_div_100, Int.emod_def]

theorem pyIntNonneg_pyFmod_100 (x : ℚ) :
    pyIntNonneg (pyFmod x 100) = (⌊x⌋ % 100).toNat := by
  unfold pyIntNonneg
  rw [floor_pyFmod_100]

theorem phi_segment_eq (code k : Nat) :
    twoDigits (pyIntNonneg (pyFmod ((code : ℚ) * phiPowFloat k) 100)) =
      specPhiSegment code k := by
  unfold specPhiSegment
  rw [pyIntNonneg_pyFmod_100]

theorem min_option_all_ge (a : Nat) (l : List Nat) (h : ∀ x ∈ l, a ≤ x) :
    l.min?.elim a (min a) = a := by
  cases hm : l.min? with
  | none => rfl
  | some m =>
    have hor : ∀ x y : Nat, min x y = x ∨ min x y = y := by
      intro x y
      rcases le_total x y with hxy | hxy
      · exact Or.inl (min_eq_left hxy)
      · exact Or.inr (min_eq_right hxy)
    have hmem : m ∈ l := List.min?_mem hor hm
    exact min_eq_left (h m hmem)

theorem find_eq_min_filter (p : Nat → Bool) (l : List Nat)
    (hs : List.Sorted (fun a b => a ≤ b) l) :
    l.find? p = (l.filter p).min? := by
  induction l with
  | nil => rfl
  | cons a t ih =>
    have hc := List.sorted_cons.mp hs
    by_cases h : p a
    · rw [List.find?_cons_of_pos _ h, List.filter_cons_of_pos h, List.min?_cons]
      congr 1
      exact (min_option_all_ge a _ (fun x hx => hc.1 x (List.mem_of_mem_filter hx))).symm
    · rw [List.find?_cons_of_neg _ h, List.filter_cons_of_neg h]
      exact ih hc.2

theorem fib_find_eq_spec (m : ℚ) :
    ((FIBONACCI.find? (fun f : ℕ => decide (m ≤ (f : ℚ)))).getD 987) =
      specFibMultiplier m := by
  unfold specFibMultiplier
  rw [find_eq_min_filter _ _ (by decide)]

/-! # Lemmas: `token_hex` output shape -/

theorem bytesToHexL_length (bs : List Nat) : (bytesToHexL bs).length = 2 * bs.length := by
  induction bs with
  | nil => rfl
  | cons b t ih =>
    show ([hexChar (b / 16), hexChar b] ++ bytesToHexL t).length = 2 * (t.length + 1)
    rw [List.length_append, ih]
    simp
    omega

theorem hexChar_lower_hex (n : Nat) : isLowerHex (hexChar n) = true := by
  rw [hexChar_mod]
  have h16 : n % 16 < 16 := Nat.mod_lt _ (by omega)
  have hall : ∀ m < 16, isLowerHex (hexChar m) = true := by decide
  exact hall _ h16

theorem bytesToHexL_hex (bs : List Nat) : ∀ c ∈ bytesToHexL bs, isLowerHex c = true := by
  intro c hc
  unfold bytesToHexL at hc
  rcases List.mem_flatMap.mp hc with ⟨b, _, hb⟩
  rcases List.mem_cons.mp hb with rfl | hb
  · exact hexChar_lower_hex _
  rcases List.mem_cons.mp hb with rfl | hb
  · exact hexChar_lower_hex _
  · exact absurd hb (List.not_mem_nil _)

theorem schumann_double : DoubleRenderable SCHUMANN_RESONANCE := by
  refine ⟨783 * 10 ^ 1072, ?_⟩
  push_cast
  rw [show ((10 : ℚ) ^ 1074 = 10 ^ 2 * 10 ^ 1072) from by rw [← pow_add]]
  norm_num [SCHUMANN_RESONANCE]

/-! # The claims -/

/-- C1: for every packet built by the codec, `header.checksum` is the first
16 hex characters of the SHA-256 digest of the UTF-8 bytes of the
JSON-serialized payload; equivalently, recomputing that checksum over the
payload recovered from the decoded transport string yields exactly
`header.checksum`.  The hypothesis states that the frequency is the exact
value of an IEEE-754 double, true of every Python float. -/
theorem checksum_correctness (I : String) (f : ℚ) (ft td : String) (es qk : List Nat)
    (seq ts : Nat) (h : DoubleRenderable f) :
    (IntentionPacket.build I f ft td es qk seq ts).header.checksum =
      some (String.mk ((sha256hexL (utf8EncodeL
        (jdumps (IntentionPacket.build I f ft td es qk seq ts).payload).toList)).take 16)) ∧
    recomputeChecksum (IntentionPacket.build I f ft td es qk seq ts).toBase64 =
      (IntentionPacket.build I f ft td es qk seq ts).header.checksum := by
  refine ⟨rfl, ?_⟩
  have hwf : JWF (IntentionPacket.build I f ft td es qk seq ts).toDict :=
    JWF_build I f ft td es qk seq ts h
  simp only [recomputeChecksum,
    toBase64_decode (IntentionPacket.build I f ft td es qk seq ts),
    toJson_decode (IntentionPacket.build I f ft td es qk seq ts),
    toJson_loads _ hwf,
    getMember_payload (IntentionPacket.build I f ft td es qk seq ts),
    Option.bind_eq_bind, Option.some_bind]
  rfl

/-- C1 witness: the checksum property at a concrete packet. -/
theorem checksum_correctness_witness :
    DoubleRenderable SCHUMANN_RESONANCE ∧
    ((IntentionPacket.build "peace" SCHUMANN_RESONANCE "torus" "dev" [] [] 0 0).header.checksum =
      some (String.mk ((sha256hexL (utf8EncodeL
        (jdumps (IntentionPacket.build "peace" SCHUMANN_RESONANCE "torus" "dev" [] [] 0 0).payload).toList)).take 16)) ∧
     recomputeChecksum (IntentionPacket.build "peace" SCHUMANN_RESONANCE "torus" "dev" [] [] 0 0).toBase64 =
      (IntentionPacket.build "peace" SCHUMANN_RESONANCE "torus" "dev" [] [] 0 0).header.checksum) :=
  ⟨schumann_double,
   checksum_correctness "peace" SCHUMANN_RESONANCE "torus" "dev" [] [] 0 0 schumann_double⟩

/-- C2: decoding the serialized built packet recovers the intention:
`extract_intention_from_packet (build I f t ...).to_base64() = some I`. -/
theorem intention_roundtrip (I : String) (f : ℚ) (ft td : String) (es qk : List Nat)
    (seq ts : Nat) (hI : I ≠ "") (hf : 0 < f) (h : DoubleRenderable f) :
    extract_intention_from_packet (IntentionPacket.build I f ft td es qk seq ts).toBase64 =
      some I := by
  have hwf : JWF (IntentionPacket.build I f ft td es qk seq ts).toDict :=
    JWF_build I f ft td es qk seq ts h
  simp only [extract_intention_from_packet,
    toBase64_decode (IntentionPacket.build I f ft td es qk seq ts),
    toJson_decode (IntentionPacket.build I f ft td es qk seq ts),
    toJson_loads _ hwf,
    getMember_payload (IntentionPacket.build I f ft td es qk seq ts),
    build_payload_intention I f ft td es qk seq ts,
    Option.bind_eq_bind, Option.some_bind]

/-- C2 witness: the round-trip at a concrete packet. -/
theorem intention_roundtrip_witness :
    ("peace" : String) ≠ "" ∧ (0 : ℚ) < SCHUMANN_RESONANCE ∧
    DoubleRenderable SCHUMANN_RESONANCE ∧
    extract_intention_from_packet
      (IntentionPacket.build "peace" SCHUMANN_RESONANCE "torus" "dev" [] [] 0 0).toBase64 =
      some "peace" :=
  ⟨by decide, by norm_num [SCHUMANN_RESONANCE], schumann_double,
   intention_roundtrip "peace" SCHUMANN_RESONANCE "torus" "dev" [] [] 0 0
     (by decide) (by norm_num [SCHUMANN_RESONANCE]) schumann_double⟩

/-- C3: for every intention (non-ASCII included), the built packet's
`header.length` equals the byte count of the UTF-8 serialization of the
payload — the same byte string the checksum is computed over. -/
theorem payload_length_bytes (I : String) (f : ℚ) (ft td : String) (es qk : List Nat)
    (seq ts : Nat) :
    (IntentionPacket.build I f ft td es qk seq ts).header.length =
      (utf8EncodeL (jdumps (IntentionPacket.build I f ft td es qk seq ts).payload).toList).length := by
  have h := utf8EncodeL_length_ascii
    (jdumps (IntentionPacket.build I f ft td es qk seq ts).payload).toList
    (jdumpsL_ascii (IntentionPacket.build I f ft td es qk seq ts).payload)
  rw [h]
  rfl

/-- C4: one failing subscriber among K: the message is delivered to the
other K−1, the failing one is removed from the registry, the others
remain; an empty registry returns at once. -/
theorem broadcast_fanout (σ : Type) [DecidableEq σ] (fails : σ → Bool)
    (clients : Finset σ) (x : σ) (hx : x ∈ clients) (hfx : fails x = true)
    (hothers : ∀ y ∈ clients, y ≠ x → fails y = false) :
    (broadcast_message σ fails clients).1 = clients.erase x ∧
    (broadcast_message σ fails clients).2 = clients.erase x ∧
    (clients.erase x).card = clients.card - 1 ∧
    broadcast_message σ fails ∅ = (∅, ∅) := by
  have hne : clients ≠ ∅ := by
    intro he
    rw [he] at hx
    exact absurd hx (Finset.not_mem_empty x)
  have hfilter : clients.filter (fun c => fails c = false) = clients.erase x := by
    ext y
    simp only [Finset.mem_filter, Finset.mem_erase]
    constructor
    · rintro ⟨hy, hfy⟩
      refine ⟨?_, hy⟩
      intro he
      rw [he, hfx] at hfy
      exact absurd hfy (by decide)
    · rintro ⟨hne2, hy⟩
      exact ⟨hy, hothers y hy hne2⟩
  refine ⟨?_, ?_, Finset.card_erase_of_mem hx, ?_⟩
  · unfold broadcast_message
    rw [if_neg hne]
    exact hfilter
  · unfold broadcast_message
    rw [if_neg hne]
    exact hfilter
  · unfold broadcast_message
    rw [if_pos rfl]

/-- C4 witness: three subscribers of which exactly number 1 fails. -/
theorem broadcast_fanout_witness :
    (1 ∈ ({0, 1, 2} : Finset Nat)) ∧
    ((broadcast_message Nat (fun n => n == 1) {0, 1, 2}).1 =
        ({0, 1, 2} : Finset Nat).erase 1 ∧
     (broadcast_message Nat (fun n => n == 1) {0, 1, 2}).2 =
        ({0, 1, 2} : Finset Nat).erase 1 ∧
     (({0, 1, 2} : Finset Nat).erase 1).card = ({0, 1, 2} : Finset Nat).card - 1 ∧
     broadcast_message Nat (fun n => n == 1) ∅ = (∅, ∅)) :=
  ⟨by decide,
   broadcast_fanout Nat (fun n => n == 1) {0, 1, 2} 1 (by decide) (by decide) (by decide)⟩

/-- C5: every geometry function rejects an empty intention with the
InvalidArgument error; the frequency/duration-taking ones reject
non-positive parameters; with a non-empty intention and positive
parameters none of them fails. -/
theorem geometry_guards (I : String) (freq mult : ℚ) (d : Int) (hour minute : Nat)
    (boost : Bool) :
    (divine_proportion_amplify "" mult = .error "Intention cannot be empty") ∧
    (merkaba_field_generator "" freq = .error "Intention cannot be empty") ∧
    (flower_of_life_pattern "" d hour minute = .error "Intention cannot be empty") ∧
    (metatrons_cube_amplifier "" boost = .error "Intention cannot be empty") ∧
    (torus_field_generator "" freq = .error "Intention cannot be empty") ∧
    (sri_yantra_encoder "" = .error "Intention cannot be empty") ∧
    (I ≠ "" → freq ≤ 0 → merkaba_field_generator I freq = .error "Frequency must be positive") ∧
    (I ≠ "" → freq ≤ 0 → torus_field_generator I freq = .error "Frequency must be positive") ∧
    (I ≠ "" → d ≤ 0 → flower_of_life_pattern I d hour minute = .error "Duration must be positive") ∧
    (I ≠ "" → ∃ r, divine_proportion_amplify I mult = .ok r) ∧
    (I ≠ "" → 0 < freq → ∃ r, merkaba_field_generator I freq = .ok r) ∧
    (I ≠ "" → 0 < d → ∃ r, flower_of_life_pattern I d hour minute = .ok r) ∧
    (I ≠ "" → ∃ r, metatrons_cube_amplifier I boost = .ok r) ∧
    (I ≠ "" → 0 < freq → ∃ r, torus_field_generator I freq = .ok r) ∧
    (I ≠ "" → ∃ r, sri_yantra_encoder I = .ok r) := by
  refine ⟨rfl, rfl, rfl, rfl, rfl, rfl, ?_, ?_, ?_, ?_, ?_, ?_, ?_, ?_, ?_⟩
  · intro hI hf
    unfold merkaba_field_generator
    rw [if_neg hI, if_pos hf]
  · intro hI hf
    unfold torus_field_generator
    rw [if_neg hI, if_pos hf]
  · intro hI hd
    unfold flower_of_life_pattern
    rw [if_neg hI, if_pos hd]
  · intro hI
    unfold divine_proportion_amplify
    rw [if_neg hI]
    exact ⟨_, rfl⟩
  · intro hI hf
    unfold merkaba_field_generator
    rw [if_neg hI, if_neg (not_le.mpr hf)]
    exact ⟨_, rfl⟩
  · intro hI hd
    unfold flower_of_life_pattern
    rw [if_neg hI, if_neg (not_le.mpr hd)]
    exact ⟨_, rfl⟩
  · intro hI
    unfold metatrons_cube_amplifier
    rw [if_neg hI]
    exact ⟨_, rfl⟩
  · intro hI hf
    unfold torus_field_generator
    rw [if_neg hI, if_neg (not_le.mpr hf)]
    exact ⟨_, rfl⟩
  · intro hI
    unfold sri_yantra_encoder
    rw [if_neg hI]
    exact ⟨_, rfl⟩

/-- C5 witness: the guard conditions at concrete inputs. -/
theorem geometry_guards_witness :
    ("om" : String) ≠ "" ∧ (0 : ℚ) < 1 ∧ (0 : ℤ) < 1 ∧
    (∃ r, torus_field_generator "om" 1 = .ok r) ∧
    divine_proportion_amplify "" 1 = .error "Intention cannot be empty" := by
  obtain ⟨h1, -, -, -, -, -, -, -, -, -, -, -, -, h14, -⟩ :=
    geometry_guards "om" 1 1 1 0 0 false
  exact ⟨by decide, by norm_num, by decide, h14 (by decide) (by norm_num), h1⟩

/-- C6: `divine_proportion_amplify` computes its result as the spec says:
the signature is SHA-256 of the concatenated per-character segments
`floor(charCode * phi^((i mod 7)+1)) mod 100` (two digits each) of the
SHA-512 hex digest followed by the intention; the fibonacci multiplier is
the smallest Fibonacci value `≥ multiplier` (987 when none qualifies);
the metatronic alignment is the char-code sum mod 9, mapped to 9 at 0,
hence never 0. -/
theorem divine_amplify_spec (I : String) (m : ℚ) (hI : I ≠ "") :
    ∃ r, divine_proportion_amplify I m = .ok r ∧
      r.phi_amplified = specPhiAmplified I ∧
      r.fibonacci_multiplier = specFibMultiplier m ∧
      r.metatronic_alignment =
        (if (I.toList.map Char.toNat).sum % 9 = 0 then 9
         else (I.toList.map Char.toNat).sum % 9) ∧
      r.metatronic_alignment ≠ 0 := by
  have hmap : ((sha512hexL (utf8EncodeL I.toList)).enum.map (fun ic =>
      twoDigits (pyIntNonneg (pyFmod ((ic.2.toNat : ℚ) * phiPowFloat (ic.1 % 7 + 1)) 100)))) =
      ((sha512hexL (utf8EncodeL I.toList)).enum.map (fun ic =>
        specPhiSegment ic.2.toNat (ic.1 % 7 + 1))) := by
    apply List.map_congr_left
    intro ic _
    exact phi_segment_eq _ _
  unfold divine_proportion_amplify
  rw [if_neg hI]
  refine ⟨_, rfl, ?_, ?_, rfl, ?_⟩
  · show sha256OfString (String.mk
      (((sha512hexL (utf8EncodeL I.toList)).enum.map (fun ic =>
        twoDigits (pyIntNonneg (pyFmod ((ic.2.toNat : ℚ) * phiPowFloat (ic.1 % 7 + 1)) 100)))).flatten
        ++ I.toList)) = specPhiAmplified I
    unfold specPhiAmplified
    rw [hmap]
  · show (FIBONACCI.find? (fun f : ℕ => decide (m ≤ (f : ℚ)))).getD 987 = specFibMultiplier m
    exact fib_find_eq_spec m
  · show (if (I.toList.map Char.toNat).sum % 9 = 0 then 9
      else (I.toList.map Char.toNat).sum % 9) ≠ 0
    split
    · omega
    · rename_i hnz
      omega

/-- C6 witness: the amplification formula at a concrete call. -/
theorem divine_amplify_spec_witness :
    ("om" : String) ≠ "" ∧
    (∃ r, divine_proportion_amplify "om" 20 = .ok r ∧
      r.phi_amplified = specPhiAmplified "om" ∧
      r.fibonacci_multiplier = specFibMultiplier 20 ∧
      r.metatronic_alignment =
        (if (("om" : String).toList.map Char.toNat).sum % 9 = 0 then 9
         else (("om" : String).toList.map Char.toNat).sum % 9) ∧
      r.metatronic_alignment ≠ 0) :=
  ⟨by decide, divine_amplify_spec "om" 20 (by decide)⟩

/-- C7 (corrected): the counterexample — `"Healing and peace"` has 17
characters, not 18, so the built packet's intention strength is
`min(17*7.83/100, 100) = 1.3311`, not `min(18*7.83/100, 100)`. -/
theorem build_example_counterexample :
    ("Healing and peace" : String).length = 17 ∧
    ("Healing and peace" : String).length ≠ 18 ∧
    (IntentionPacket.build "Healing and peace" SCHUMANN_RESONANCE "torus" "dev"
        [] [] 0 0).intention_strength ≠ min ((18 : ℚ) * (783 / 100) / 100) 100 := by
  refine ⟨rfl, by decide, ?_⟩
  show min ((("Healing and peace" : String).length : ℚ) * SCHUMANN_RESONANCE / 100) 100 ≠
    min ((18 : ℚ) * (783 / 100) / 100) 100
  rw [show ("Healing and peace" : String).length = 17 from rfl]
  norm_num [SCHUMANN_RESONANCE, min_def]

/-- C7 (amended): `build("Healing and peace", 7.83, "torus")` yields an
energy signature of 16 lower-case hex characters, a quantum key of 32,
and an intention strength of `min(17*7.83/100, 100) = 1.3311` (the
intention has 17 characters, not 18). -/
theorem build_example_fields (es qk : List Nat) (seq ts : Nat)
    (hes : es.length = 8) (hqk : qk.length = 16) :
    (IntentionPacket.build "Healing and peace" SCHUMANN_RESONANCE "torus" "dev"
        es qk seq ts).energy_signature.length = 16 ∧
    (∀ c ∈ (IntentionPacket.build "Healing and peace" SCHUMANN_RESONANCE "torus" "dev"
        es qk seq ts).energy_signature.toList, isLowerHex c = true) ∧
    (IntentionPacket.build "Healing and peace" SCHUMANN_RESONANCE "torus" "dev"
        es qk seq ts).quantum_key.length = 32 ∧
    (∀ c ∈ (IntentionPacket.build "Healing and peace" SCHUMANN_RESONANCE "torus" "dev"
        es qk seq ts).quantum_key.toList, isLowerHex c = true) ∧
    (IntentionPacket.build "Healing and peace" SCHUMANN_RESONANCE "torus" "dev"
        es qk seq ts).intention_strength = min ((17 : ℚ) * (783 / 100) / 100) 100 ∧
    (IntentionPacket.build "Healing and peace" SCHUMANN_RESONANCE "torus" "dev"
        es qk seq ts).intention_strength = 13311 / 10000 := by
  refine ⟨?_, ?_, ?_, ?_, ?_, ?_⟩
  · show (bytesToHexL es).length = 16
    rw [bytesToHexL_length, hes]
  · show ∀ c ∈ bytesToHexL es, isLowerHex c = true
    exact bytesToHexL_hex es
  · show (bytesToHexL qk).length = 32
    rw [bytesToHexL_length, hqk]
  · show ∀ c ∈ bytesToHexL qk, isLowerHex c = true
    exact bytesToHexL_hex qk
  · show min ((("Healing and peace" : String).length : ℚ) * SCHUMANN_RESONANCE / 100) 100 =
      min ((17 : ℚ) * (783 / 100) / 100) 100
    rw [show ("Healing and peace" : String).length = 17 from rfl]
    norm_num [SCHUMANN_RESONANCE]
  · show min ((("Healing and peace" : String).length : ℚ) * SCHUMANN_RESONANCE / 100) 100 =
      13311 / 10000
    rw [show ("Healing and peace" : String).length = 17 from rfl]
    norm_num [SCHUMANN_RESONANCE, min_def]

/-- C7 witness: the amended field shapes at concrete random bytes. -/
theorem build_example_fields_witness :
    ([0, 1, 2, 3, 4, 5, 6, 7] : List Nat).length = 8 ∧
    ([0, 0, 0, 0, 0, 0, 0, 0, 0, 0, 0, 0, 0, 0, 0, 255] : List Nat).length = 16 ∧
    ((IntentionPacket.build "Healing and peace" SCHUMANN_RESONANCE "torus" "dev"
        [0, 1, 2, 3, 4, 5, 6, 7] [0, 0, 0, 0, 0, 0, 0, 0, 0, 0, 0, 0, 0, 0, 0, 255]
        0 0).intention_strength = 13311 / 10000) :=
  ⟨rfl, rfl,
   (build_example_fields [0, 1, 2, 3, 4, 5, 6, 7]
     [0, 0, 0, 0, 0, 0, 0, 0, 0, 0, 0, 0, 0, 0, 0, 255] 0 0 rfl rfl).2.2.2.2.2⟩

/-- C8 (corrected): the counterexample — `DivineAmplify("Love")` does not
return metatronic alignment 4. -/
theorem love_alignment_counterexample :
    ∃ r, divine_proportion_amplify "Love" 1 = .ok r ∧ r.metatronic_alignment ≠ 4 := by
  unfold divine_proportion_amplify
  rw [if_neg (by decide : ("Love" : String) ≠ "")]
  refine ⟨_, rfl, ?_⟩
  decide

/-- C8 (amended): the char codes of `"Love"` sum to 406 and
`406 mod 9 = 1`, so the metatronic alignment of `DivineAmplify("Love")`
is 1 (the spec's arithmetic `406 mod 9 = 4` is wrong). -/
theorem love_alignment_amended :
    (("Love" : String).toList.map Char.toNat).sum = 406 ∧
    ∃ r, divine_proportion_amplify "Love" 1 = .ok r ∧
      r.metatronic_alignment = (if 406 % 9 = 0 then 9 else 406 % 9) ∧
      r.metatronic_alignment = 1 := by
  refine ⟨by decide, ?_⟩
  unfold divine_proportion_amplify
  rw [if_neg (by decide : ("Love" : String) ≠ "")]
  refine ⟨_, rfl, ?_, ?_⟩
  · decide
  · decide

/-- C9 (corrected): the counterexample — the code builds each seed string
with colon separators (`f"{intention}:{angle}:{radius}"`), so its seed
hash differs from the spec's separator-less concatenation. -/
theorem seed_separator_counterexample :
    seedHash "Love" 0 ≠ seedHashSpec "Love" 0 := by
  decide

/-- C9 (amended): FlowerOfLife produces exactly 7 seed sub-hashes, the
i-th being the first 8 hex characters of SHA-256 of
`intention + ":" + angle + ":" + radius` (colon separators), and the
flower pattern is their concatenation in order. -/
theorem flower_seed_amended (I : String) (d : Int) (hour minute : Nat)
    (hI : I ≠ "") (hd : 0 < d) :
    ∃ r, flower_of_life_pattern I d hour minute = .ok r ∧
      r.flower_pattern = String.join ((List.range 7).map (seedHash I)) ∧
      ((List.range 7).map (seedHash I)).length = 7 ∧
      ∀ i, seedHash I i =
        strTake (sha256OfString (I ++ ":" ++ seedAngleStr i ++ ":" ++ seedRadiusStr i)) 8 := by
  unfold flower_of_life_pattern
  rw [if_neg hI, if_neg (not_le.mpr hd)]
  exact ⟨_, rfl, rfl, by simp, fun i => rfl⟩

/-- C9 witness: the amended seed-hash property at a concrete call. -/
theorem flower_seed_amended_witness :
    ("om" : String) ≠ "" ∧ (0 : ℤ) < 1 ∧
    (∃ r, flower_of_life_pattern "om" 1 0 0 = .ok r ∧
      r.flower_pattern = String.join ((List.range 7).map (seedHash "om")) ∧
      ((List.range 7).map (seedHash "om")).length = 7 ∧
      ∀ i, seedHash "om" i =
        strTake (sha256OfString ("om" ++ ":" ++ seedAngleStr i ++ ":" ++ seedRadiusStr i)) 8) :=
  ⟨by decide, by decide, flower_seed_amended "om" 1 0 0 (by decide) (by decide)⟩

/-- C10: an inbound INTENTION message with a missing or empty intention
still produces exactly the echo broadcast (with intention \x22\x22): no torus
descriptor, no amplification message, no SYSTEM error reply — the empty
string fails Python truthiness before any geometry call. -/
theorem empty_intention_echo (iOpt : Option String) (freq : Option ℚ)
    (boost : Option Bool) (mult : Option ℚ)
    (hi : iOpt = none ∨ iOpt = some "") :
    handleIntentionMessage ⟨iOpt, freq, boost, mult⟩ =
      [.broadcastEcho "" (freq.getD SCHUMANN_RESONANCE) (boost.getD false) (mult.getD 1)] := by
  rcases hi with rfl | rfl <;> rfl

/-- C10 witness: the empty-intention echo at a concrete message. -/
theorem empty_intention_echo_witness :
    ((none : Option String) = none ∨ (none : Option String) = some "") ∧
    handleIntentionMessage ⟨none, none, none, none⟩ =
      [.broadcastEcho "" ((none : Option ℚ).getD SCHUMANN_RESONANCE)
        ((none : Option Bool).getD false) ((none : Option ℚ).getD 1)] :=
  ⟨Or.inl rfl, empty_intention_echo none none none none (Or.inl rfl)⟩

end Healing

